import Mathlib

/-!
Verification development for the skyrecover recovery engine.

The definitions below are a shallow embedding of the Go sources:
  * `downloadSector`   — cmd/healthcheck (downloadSector, part_008 lines 410-445)
  * `fastSectors`, `fastChunkLoop` — the fast path of `recoverCmd` (part_008 lines 296-349)
  * `recoverSectorLoop`, `slowSectors`, `slowChunkLoop` — the slow path
    (cmd/skyrecover/recovery.go `recoverSector` and part_008 lines 359-399)
  * `processChunk`, `recoverRunLoop` — the per-chunk state machine and outer loop
    (part_008 lines 286-405)
  * `Renter.*` — internal/renter (part_004)
  * `initErasureCoder`, `numChunks`, `parseRecords`, `loadChunks`, `loadFile`
    — internal/siafile/siafile.go `InitErasureCoder` and `Load`
  * `SiaFile`, `encSiaFile`, `decSiaFile` — the exported JSON topology form
    (internal/siafile SiaFile struct, cmd/skyscan/main.go encoder)

Bytes are modelled as `List Nat`, merkle roots and host public keys as `Nat`
(the code treats both as atomic identifiers compared for equality).  The
sector hash function (`rhp.SectorRoot`) is an abstract parameter `hash`.
Network behaviour is an oracle `net : host → root → HostResp`.
-/

/-- Sector size constant (`rhp.SectorSize = 1 << 22`). -/
def sectorSize : Nat := 4194304

/-- Classified host-side error of a sector read RPC.  The Go code carries
`error` values and classifies them downstream by substring matching; the
substrings correspond exactly to these constructors
("no record of that contract", "could not find the desired sector"). -/
inductive RpcErr where
  | contractNotFound
  | sectorNotFound
  | other
deriving DecidableEq

/-- Behaviour of one host for one requested root: result of `RPCSettings`
and of the session `Read` call. -/
structure HostResp where
  settingsOk : Bool
  readResult : Except RpcErr (List Nat)

/-- Errors `downloadSector` can return (part_008 lines 410-445). -/
inductive DlErr where
  | sessionFailed
  | settingsFailed
  | readFailed (e : RpcErr)
  | badLength
  | badRoot
deriving DecidableEq

/-- Classification `strings.Contains(err.Error(), "no record of that contract")`:
only a read error wrapping the host's contract-not-found message matches.
A session failure (`ErrNoContract`, "no contract formed") does not. -/
def errNoRecord : DlErr → Bool
  | .readFailed .contractNotFound => true
  | _ => false

/-- Model of `downloadSector(r, hostPub, sector)`:
opens a session (fails when the renter holds no contract for the host —
this is checked locally, before any network traffic), fetches settings,
reads the sector, checks the length against `rhp.SectorSize` and the
recomputed merkle root against the requested root. -/
def downloadSector (hash : List Nat → Nat) (net : Nat → Nat → HostResp)
    (contracts : List Nat) (host root : Nat) : Except DlErr (List Nat) :=
  if host ∈ contracts then
    if (net host root).settingsOk then
      match (net host root).readResult with
      | .error e => .error (.readFailed e)
      | .ok data =>
        if data.length ≠ sectorSize then .error .badLength
        else if hash data ≠ root then .error .badRoot
        else .ok data
    else .error .settingsFailed
  else .error .sessionFailed

/-- Association-list model of the Go maps (`recoveredSectors`). -/
def lookupCache : List (Nat × List Nat) → Nat → Option (List Nat)
  | [], _ => none
  | (r, d) :: rest, root => if r = root then some d else lookupCache rest root

/-- Model of `delete(r.contracts, hostID)`: removal of a key from a map. -/
def removeHost (contracts : List Nat) (h : Nat) : List Nat :=
  contracts.filter (fun x => x ≠ h)

/-- Mutable state threaded through the recovery run: the renter's
contract set (availability set) and the recovered-sector cache. -/
structure OrcState where
  contracts : List Nat
  cache : List (Nat × List Nat)

/-- Result of scanning one piece's sector references. `fetched` is the
ghost trace of successful network fetches (host, root). -/
structure SectorsOut where
  st : OrcState
  count : Nat
  data : List Nat
  fetched : List (Nat × Nat)

/-- Fast path inner loop (part_008 lines 308-332): for each sector
reference, consult the cache first; on a miss download from the listed
host; a successful download is stored in the cache; an error matching
"no record of that contract" removes the host from the contract set;
other errors are only logged. -/
def fastSectors (hash : List Nat → Nat) (net : Nat → Nat → HostResp) :
    OrcState → List (Nat × Nat) → SectorsOut
  | st, [] => ⟨st, 0, [], []⟩
  | st, s :: rest =>
    match lookupCache st.cache s.1 with
    | some buf =>
      let o := fastSectors hash net st rest
      ⟨o.st, o.count + 1, buf ++ o.data, o.fetched⟩
    | none =>
      match downloadSector hash net st.contracts s.2 s.1 with
      | .ok buf =>
        let o := fastSectors hash net ⟨st.contracts, (s.1, buf) :: st.cache⟩ rest
        ⟨o.st, o.count + 1, buf ++ o.data, (s.2, s.1) :: o.fetched⟩
      | .error e =>
        let st' : OrcState :=
          if errNoRecord e then ⟨removeHost st.contracts s.2, st.cache⟩ else st
        let o := fastSectors hash net st' rest
        ⟨o.st, o.count, o.data, o.fetched⟩

/-- A piece is a list of sector references (root, listed host);
`(root, host)` pairs mirror `siafile.Piece{MerkleRoot, HostKey}`. -/
abbrev PieceRefs := List (Nat × Nat)

/-- Output of the per-chunk fast-path loop. -/
structure ChunkOut where
  st : OrcState
  recovered : Nat
  pieces : List (Nat × List Nat)
  missing : List Nat
  fetched : List (Nat × Nat)

/-- Fast path piece loop (part_008 lines 296-349): empty piece slots are
skipped; a piece counts as recovered only when every one of its sector
references was recovered (`sectorsRecovered != len(piece)` marks it
missing); the recovered data is decrypted — a decryption error is only
logged, the returned bytes are stored and the piece counted regardless —
and the loop stops once `minPieces` pieces are recovered. -/
def fastChunkLoop (hash : List Nat → Nat) (net : Nat → Nat → HostResp)
    (decrypt : Nat → List Nat → List Nat × Bool) (minPieces : Nat) :
    OrcState → Nat → List (Nat × PieceRefs) → ChunkOut
  | st, recovered, [] => ⟨st, recovered, [], [], []⟩
  | st, recovered, (idx, piece) :: rest =>
    if piece.length = 0 then
      fastChunkLoop hash net decrypt minPieces st recovered rest
    else
      let s := fastSectors hash net st piece
      if s.count ≠ piece.length then
        let o := fastChunkLoop hash net decrypt minPieces s.st recovered rest
        ⟨o.st, o.recovered, o.pieces, idx :: o.missing, s.fetched ++ o.fetched⟩
      else
        let dec := (decrypt idx s.data).1
        if minPieces ≤ recovered + 1 then
          ⟨s.st, recovered + 1, [(idx, dec)], [], s.fetched⟩
        else
          let o := fastChunkLoop hash net decrypt minPieces s.st (recovered + 1) rest
          ⟨o.st, o.recovered, (idx, dec) :: o.pieces, o.missing, s.fetched ++ o.fetched⟩

/-- Slow path host race (cmd/skyrecover/recovery.go lines 53-107),
sequentialised: the worker pool feeds every currently-available host the
same sector request; the first verified success wins; a
"could not find the desired sector" reply just moves on; a
"no record of that contract" reply removes the host from the contract
set.  The host list argument is the snapshot `r.Hosts()` taken at entry. -/
def recoverSectorLoop (hash : List Nat → Nat) (net : Nat → Nat → HostResp) :
    OrcState → Nat → List Nat → OrcState × Option (List Nat) × List (Nat × Nat)
  | st, _, [] => (st, none, [])
  | st, root, h :: rest =>
    match downloadSector hash net st.contracts h root with
    | .ok data => (st, some data, [(h, root)])
    | .error e =>
      let st' : OrcState :=
        if errNoRecord e then ⟨removeHost st.contracts h, st.cache⟩ else st
      recoverSectorLoop hash net st' root rest

/-- Model of `recoverSector(ctx, r, sector, workers)`: race the sector against the
snapshot of all available hosts. -/
def recoverSector (hash : List Nat → Nat) (net : Nat → Nat → HostResp)
    (st : OrcState) (root : Nat) : OrcState × Option (List Nat) × List (Nat × Nat) :=
  recoverSectorLoop hash net st root st.contracts

/-- Slow path sector loop (part_008 lines 367-382): consult the cache,
else race the sector network-wide.  A recovered sector is NOT inserted
into the cache (the Go code has no `recoveredSectors[...] = buf` here). -/
def slowSectors (hash : List Nat → Nat) (net : Nat → Nat → HostResp) :
    OrcState → List (Nat × Nat) → SectorsOut
  | st, [] => ⟨st, 0, [], []⟩
  | st, s :: rest =>
    match lookupCache st.cache s.1 with
    | some buf =>
      let o := slowSectors hash net st rest
      ⟨o.st, o.count + 1, buf ++ o.data, o.fetched⟩
    | none =>
      match recoverSector hash net st s.1 with
      | (st', some buf, f) =>
        let o := slowSectors hash net st' rest
        ⟨o.st, o.count + 1, buf ++ o.data, f ++ o.fetched⟩
      | (st', none, f) =>
        let o := slowSectors hash net st' rest
        ⟨o.st, o.count, o.data, f ++ o.fetched⟩

/-- Output of the slow-path piece loop. -/
structure SlowOut where
  st : OrcState
  recovered : Nat
  pieces : List (Nat × List Nat)
  fetched : List (Nat × Nat)

/-- Slow path piece loop (part_008 lines 361-399) over the missing piece
indices, with the same decrypt-and-count-regardless handling and the same
stop once `minPieces` pieces are recovered. -/
def slowChunkLoop (hash : List Nat → Nat) (net : Nat → Nat → HostResp)
    (decrypt : Nat → List Nat → List Nat × Bool) (minPieces : Nat)
    (chunkPieces : Nat → PieceRefs) :
    OrcState → Nat → List Nat → SlowOut
  | st, recovered, [] => ⟨st, recovered, [], []⟩
  | st, recovered, idx :: rest =>
    let piece := chunkPieces idx
    let s := slowSectors hash net st piece
    if s.count ≠ piece.length then
      let o := slowChunkLoop hash net decrypt minPieces chunkPieces s.st recovered rest
      ⟨o.st, o.recovered, o.pieces, s.fetched ++ o.fetched⟩
    else
      let dec := (decrypt idx s.data).1
      if minPieces ≤ recovered + 1 then
        ⟨s.st, recovered + 1, [(idx, dec)], s.fetched⟩
      else
        let o := slowChunkLoop hash net decrypt minPieces chunkPieces s.st (recovered + 1) rest
        ⟨o.st, o.recovered, (idx, dec) :: o.pieces, s.fetched ++ o.fetched⟩

/-- One chunk of the recovery run (part_008 lines 290-405): fast path; if
fewer than `minPieces` pieces were recovered, the slow path over the
missing pieces; then `ec.Recover`.  Reed-Solomon reconstruction succeeds
exactly when at least `minPieces` (= dataPieces) pieces are present, in
which case it writes `chunkLen` bytes produced by the abstract
`reconstruct` oracle; with fewer pieces it fails, which the command turns
into `log.Fatalf` (modelled as the `none` result). -/
def processChunk (hash : List Nat → Nat) (net : Nat → Nat → HostResp)
    (decrypt : Nat → List Nat → List Nat × Bool) (minPieces : Nat)
    (reconstruct : List (Nat × List Nat) → Nat → List Nat)
    (st : OrcState) (pieces : List PieceRefs) (chunkLen : Nat) :
    OrcState × Option (List Nat) × List (Nat × Nat) :=
  let f := fastChunkLoop hash net decrypt minPieces st 0 pieces.enum
  if minPieces ≤ f.recovered then
    (f.st, some (reconstruct f.pieces chunkLen), f.fetched)
  else
    let sl := slowChunkLoop hash net decrypt minPieces (fun i => pieces.getD i [])
      f.st f.recovered f.missing
    if minPieces ≤ sl.recovered then
      (sl.st, some (reconstruct (f.pieces ++ sl.pieces) chunkLen), f.fetched ++ sl.fetched)
    else
      (sl.st, none, f.fetched ++ sl.fetched)

/-- Result of a recovery run: the list of chunk byte strings written to
the output file.  `fatal` means the process exited via `log.Fatalf` while
the output file (created before the loop) retains the chunks written so
far. -/
inductive RunResult where
  | ok (written : List (List Nat))
  | fatal (written : List (List Nat))
deriving DecidableEq

/-- The outer chunk loop of `recoverCmd` (part_008 lines 286-405),
threading the mutable `chunkSize` (clamped to the remaining size) and
`remainingSize` exactly as the Go code does. -/
def recoverRunLoop (hash : List Nat → Nat) (net : Nat → Nat → HostResp)
    (decrypt : Nat → Nat → List Nat → List Nat × Bool) (minPieces : Nat)
    (reconstruct : List (Nat × List Nat) → Nat → List Nat) :
    OrcState → Nat → Nat → Nat → List (List PieceRefs) →
      RunResult × List (Nat × Nat)
  | _, _, _, _, [] => (.ok [], [])
  | st, cs, rem, chunkIdx, chunk :: rest =>
    let cs' := if rem < cs then rem else cs
    let rem' := rem - cs'
    match processChunk hash net (decrypt chunkIdx) minPieces reconstruct st chunk cs' with
    | (st', some bytes, f) =>
      let r := recoverRunLoop hash net decrypt minPieces reconstruct st' cs' rem' (chunkIdx + 1) rest
      (match r.1 with
       | .ok w => (.ok (bytes :: w), f ++ r.2)
       | .fatal w => (.fatal (bytes :: w), f ++ r.2))
    | (_, none, f) => (.fatal [], f)

/-- Entry point of the recovery loop: `chunkSize := sf.PieceSize *
uint64(ec.MinPieces()); remainingSize := sf.FileSize`. -/
def recoverRun (hash : List Nat → Nat) (net : Nat → Nat → HostResp)
    (decrypt : Nat → Nat → List Nat → List Nat × Bool) (minPieces : Nat)
    (reconstruct : List (Nat × List Nat) → Nat → List Nat)
    (st : OrcState) (pieceSize fileSize : Nat) (chunks : List (List PieceRefs)) :
    RunResult × List (Nat × Nat) :=
  recoverRunLoop hash net decrypt minPieces reconstruct st (pieceSize * minPieces) fileSize 0 chunks

/-- C3 helper: every cache entry's data hashes to its key. -/
def CacheVerified (hash : List Nat → Nat) (cache : List (Nat × List Nat)) : Prop :=
  ∀ e ∈ cache, hash e.2 = e.1

/-- Helper: a successful `downloadSector` implies the returned data
verifies against the requested root and has sector length. -/
lemma downloadSector_ok_verified (hash : List Nat → Nat) (net : Nat → Nat → HostResp)
    (contracts : List Nat) (host root : Nat) (data : List Nat)
    (h : downloadSector hash net contracts host root = .ok data) :
    hash data = root ∧ data.length = sectorSize := by
  unfold downloadSector at h
  split at h
  · split at h
    · split at h
      · exact absurd h (by simp)
      · split at h
        · exact absurd h (by simp)
        · split at h
          · exact absurd h (by simp)
          · rename_i hlen hroot
            cases h
            exact ⟨not_ne_iff.mp hroot, not_ne_iff.mp hlen⟩
    · exact absurd h (by simp)
  · exact absurd h (by simp)

/-- Helper: the fast-path scan preserves the cache-verification invariant. -/
lemma fastSectors_cache_verified (hash : List Nat → Nat) (net : Nat → Nat → HostResp)
    (st : OrcState) (piece : List (Nat × Nat)) (hcv : CacheVerified hash st.cache) :
    CacheVerified hash (fastSectors hash net st piece).st.cache := by
  induction piece generalizing st with
  | nil => simpa [fastSectors] using hcv
  | cons s rest ih =>
    cases hc : lookupCache st.cache s.1 with
    | some buf =>
      simp only [fastSectors, hc]
      exact ih st hcv
    | none =>
      cases hd : downloadSector hash net st.contracts s.2 s.1 with
      | ok buf =>
        simp only [fastSectors, hc, hd]
        apply ih
        intro e he
        rcases List.mem_cons.mp he with rfl | he'
        · exact (downloadSector_ok_verified hash net st.contracts s.2 s.1 buf hd).1
        · exact hcv e he'
      | error e =>
        by_cases hb : errNoRecord e = true
        · simp only [fastSectors, hc, hd, hb, if_true]
          exact ih ⟨removeHost st.contracts s.2, st.cache⟩ hcv
        · simp only [fastSectors, hc, hd, hb, if_false]
          exact ih st hcv

/-- C3: `downloadSector` returns sector bytes only when the recomputed
merkle root of the returned bytes equals the requested root (and the
length is exactly one sector); consequently, starting from a cache whose
entries all verify, every cache entry after a fast-path scan still
verifies — no unverified bytes enter the recovered-sector cache. -/
theorem downloadSector_only_verified :
    (∀ (hash : List Nat → Nat) (net : Nat → Nat → HostResp)
        (contracts : List Nat) (host root : Nat) (data : List Nat),
      downloadSector hash net contracts host root = .ok data →
        hash data = root ∧ data.length = sectorSize) ∧
    (∀ (hash : List Nat → Nat) (net : Nat → Nat → HostResp)
        (st : OrcState) (piece : List (Nat × Nat)),
      CacheVerified hash st.cache →
        CacheVerified hash (fastSectors hash net st piece).st.cache) :=
  ⟨downloadSector_ok_verified, fastSectors_cache_verified⟩

/-- C3 witness: a concrete successful download, with the root recomputed
from the returned bytes matching the request. -/
theorem downloadSector_only_verified_witness :
    (fun b : List Nat => b.length) (List.replicate sectorSize 0) = sectorSize ∧
      (List.replicate sectorSize 0).length = sectorSize :=
  downloadSector_only_verified.1 (fun b => b.length)
    (fun _ _ => ⟨true, .ok (List.replicate sectorSize 0)⟩) [1] 1 sectorSize
    (List.replicate sectorSize 0) (by simp [downloadSector])

/-- Shared concrete hash oracle for witnesses: the root of a sector is its
byte length (injective enough for the scenarios below). -/
def lenHash : List Nat → Nat := fun b => b.length

/-- Shared concrete sector contents of the right length. -/
def okData : List Nat := List.replicate sectorSize 0

/-- Parameterised network oracle: every host serves payload `d` for the
sector whose root is `sectorSize` and answers "could not find the desired
sector" for everything else. -/
def demoNetD (d : List Nat) : Nat → Nat → HostResp :=
  fun _ r => if r = sectorSize then ⟨true, .ok d⟩ else ⟨true, .error .sectorNotFound⟩

/-- Shared concrete network oracle serving `okData`. -/
def demoNet : Nat → Nat → HostResp := demoNetD okData

/-- Shared concrete decryption oracle that always succeeds. -/
def idDecrypt : Nat → List Nat → List Nat × Bool := fun _ b => (b, true)

/-- The demo sector data has exactly sector length. -/
lemma okData_length : okData.length = sectorSize := by
  rw [okData]
  exact List.length_replicate _ _

/-- The sector size constant is nonzero. -/
lemma sectorSize_ne_zero : sectorSize ≠ 0 := by
  rw [sectorSize]
  decide

/-- Zero is not the sector size. -/
lemma zero_ne_sectorSize : (0 : Nat) ≠ sectorSize := fun h => sectorSize_ne_zero h.symm

/-- The demo data is nonempty. -/
lemma okData_ne_nil : okData ≠ [] := by
  intro h
  have := okData_length
  rw [h] at this
  exact sectorSize_ne_zero this.symm

/-- C1 counterexample: a piece with two sector references whose first
reference is fetched and hash-verified (it appears in the fetch trace)
while the second fails; contrary to the claim, the piece is NOT counted
as recovered (`recovered = 0`, the piece lands in `missing`). -/
theorem fastPath_one_success_not_counted :
    (fastChunkLoop lenHash demoNet idDecrypt 1 ⟨[1], []⟩ 0
        [(0, [(sectorSize, 1), (0, 1)])]).recovered = 0 ∧
    (1, sectorSize) ∈ (fastChunkLoop lenHash demoNet idDecrypt 1 ⟨[1], []⟩ 0
        [(0, [(sectorSize, 1), (0, 1)])]).fetched ∧
    (fastChunkLoop lenHash demoNet idDecrypt 1 ⟨[1], []⟩ 0
        [(0, [(sectorSize, 1), (0, 1)])]).missing = [0] := by
  have key : ∀ d : List Nat, d.length = sectorSize →
      (fastChunkLoop lenHash (demoNetD d) idDecrypt 1 ⟨[1], []⟩ 0
          [(0, [(sectorSize, 1), (0, 1)])]).recovered = 0 ∧
      (1, sectorSize) ∈ (fastChunkLoop lenHash (demoNetD d) idDecrypt 1 ⟨[1], []⟩ 0
          [(0, [(sectorSize, 1), (0, 1)])]).fetched ∧
      (fastChunkLoop lenHash (demoNetD d) idDecrypt 1 ⟨[1], []⟩ 0
          [(0, [(sectorSize, 1), (0, 1)])]).missing = [0] := by
    intro d hd
    simp [fastChunkLoop, fastSectors, downloadSector, lookupCache, demoNetD, lenHash,
      errNoRecord, hd, sectorSize_ne_zero, zero_ne_sectorSize]
  exact key okData okData_length

/-- C1 amended: the fast path counts a piece as recovered only when every
one of its sector references has been recovered; if any reference fails
(`sectorsRecovered != len(piece)`), the piece contributes nothing to the
recovered count, is not stored, and is appended to the missing list —
even when other references of the same piece were fetched successfully. -/
theorem fastPath_piece_requires_all_sectors
    (hash : List Nat → Nat) (net : Nat → Nat → HostResp)
    (decrypt : Nat → List Nat → List Nat × Bool) (minPieces : Nat)
    (st : OrcState) (recovered idx : Nat) (piece : PieceRefs)
    (rest : List (Nat × PieceRefs))
    (hne : piece.length ≠ 0)
    (hfail : (fastSectors hash net st piece).count ≠ piece.length) :
    (fastChunkLoop hash net decrypt minPieces st recovered ((idx, piece) :: rest)).recovered
      = (fastChunkLoop hash net decrypt minPieces
          (fastSectors hash net st piece).st recovered rest).recovered
    ∧ (fastChunkLoop hash net decrypt minPieces st recovered ((idx, piece) :: rest)).pieces
      = (fastChunkLoop hash net decrypt minPieces
          (fastSectors hash net st piece).st recovered rest).pieces
    ∧ idx ∈ (fastChunkLoop hash net decrypt minPieces st recovered
          ((idx, piece) :: rest)).missing := by
  have h : fastChunkLoop hash net decrypt minPieces st recovered ((idx, piece) :: rest)
      = (let o := fastChunkLoop hash net decrypt minPieces
          (fastSectors hash net st piece).st recovered rest
         ⟨o.st, o.recovered, o.pieces, idx :: o.missing,
          (fastSectors hash net st piece).fetched ++ o.fetched⟩) := by
    rw [fastChunkLoop]
    simp only [if_neg hne, if_pos hfail]
  rw [h]
  exact ⟨rfl, rfl, by simp⟩

/-- C1 amended witness: the concrete two-reference piece of the
counterexample satisfies the hypotheses, and the amended conclusion holds
for it. -/
theorem fastPath_piece_requires_all_sectors_witness :
    ([(sectorSize, 1), (0, 1)] : PieceRefs).length ≠ 0 ∧
    (fastSectors lenHash demoNet ⟨[1], []⟩ [(sectorSize, 1), (0, 1)]).count
      ≠ ([(sectorSize, 1), (0, 1)] : PieceRefs).length ∧
    (0 : Nat) ∈ (fastChunkLoop lenHash demoNet idDecrypt 2 ⟨[1], []⟩ 0
        [(0, [(sectorSize, 1), (0, 1)])]).missing := by
  have h1 : ([(sectorSize, 1), (0, 1)] : PieceRefs).length ≠ 0 := by simp
  have h2 : (fastSectors lenHash demoNet ⟨[1], []⟩ [(sectorSize, 1), (0, 1)]).count
      ≠ ([(sectorSize, 1), (0, 1)] : PieceRefs).length := by
    have key : ∀ d : List Nat, d.length = sectorSize →
        (fastSectors lenHash (demoNetD d) ⟨[1], []⟩ [(sectorSize, 1), (0, 1)]).count
          ≠ ([(sectorSize, 1), (0, 1)] : PieceRefs).length := by
      intro d hd
      simp [fastSectors, downloadSector, lookupCache, demoNetD, lenHash,
        errNoRecord, hd, sectorSize_ne_zero, zero_ne_sectorSize]
    exact key okData okData_length
  exact ⟨h1, h2,
    (fastPath_piece_requires_all_sectors lenHash demoNet idDecrypt 2
      ⟨[1], []⟩ 0 0 [(sectorSize, 1), (0, 1)] [] h1 h2).2.2⟩

/-- Helper: the fast-path chunk loop depends on the decryption oracle
only through the returned bytes, never through its error flag. -/
lemma fastChunkLoop_decrypt_agnostic (hash : List Nat → Nat) (net : Nat → Nat → HostResp)
    (d1 d2 : Nat → List Nat → List Nat × Bool) (minPieces : Nat)
    (hagree : ∀ i b, (d1 i b).1 = (d2 i b).1) :
    ∀ (ps : List (Nat × PieceRefs)) (st : OrcState) (recovered : Nat),
      fastChunkLoop hash net d1 minPieces st recovered ps
        = fastChunkLoop hash net d2 minPieces st recovered ps := by
  intro ps
  induction ps with
  | nil => intro st r; rfl
  | cons p rest ih =>
    intro st r
    obtain ⟨idx, piece⟩ := p
    rw [fastChunkLoop, fastChunkLoop]
    by_cases h0 : piece.length = 0
    · simp only [if_pos h0]
      exact ih st r
    · simp only [if_neg h0]
      by_cases hc : (fastSectors hash net st piece).count ≠ piece.length
      · simp only [if_pos hc]
        rw [ih]
      · simp only [if_neg hc]
        rw [hagree idx]
        by_cases hm : minPieces ≤ r + 1
        · simp only [if_pos hm]
        · simp only [if_neg hm]
          rw [ih]

/-- Helper: same decrypt-flag independence for the slow-path loop. -/
lemma slowChunkLoop_decrypt_agnostic (hash : List Nat → Nat) (net : Nat → Nat → HostResp)
    (d1 d2 : Nat → List Nat → List Nat × Bool) (minPieces : Nat)
    (chunkPieces : Nat → PieceRefs)
    (hagree : ∀ i b, (d1 i b).1 = (d2 i b).1) :
    ∀ (missing : List Nat) (st : OrcState) (recovered : Nat),
      slowChunkLoop hash net d1 minPieces chunkPieces st recovered missing
        = slowChunkLoop hash net d2 minPieces chunkPieces st recovered missing := by
  intro missing
  induction missing with
  | nil => intro st r; rfl
  | cons idx rest ih =>
    intro st r
    rw [slowChunkLoop, slowChunkLoop]
    by_cases hc : (slowSectors hash net st (chunkPieces idx)).count ≠ (chunkPieces idx).length
    · simp only [if_pos hc]
      rw [ih]
    · simp only [if_neg hc]
      rw [hagree idx]
      by_cases hm : minPieces ≤ r + 1
      · simp only [if_pos hm]
      · simp only [if_neg hm]
        rw [ih]

/-- C10: a decryption failure in `recoverCmd` is only logged: the chunk
processing result — recovered counts, stored piece bytes, cache, fetch
trace, reconstruction — is completely independent of the decryption
oracle's error flag; moreover a fully-fetched piece is stored with the
(possibly failed) decryption output and counted toward `minPieces`
unconditionally. -/
theorem decrypt_failure_only_logged (hash : List Nat → Nat) (net : Nat → Nat → HostResp)
    (d1 d2 : Nat → List Nat → List Nat × Bool) (minPieces : Nat)
    (reconstruct : List (Nat × List Nat) → Nat → List Nat)
    (st : OrcState) (pieces : List PieceRefs) (chunkLen : Nat)
    (hagree : ∀ i b, (d1 i b).1 = (d2 i b).1) :
    processChunk hash net d1 minPieces reconstruct st pieces chunkLen
      = processChunk hash net d2 minPieces reconstruct st pieces chunkLen
    ∧ (∀ (idx : Nat) (piece : PieceRefs) (rest : List (Nat × PieceRefs)) (recovered : Nat),
        piece.length ≠ 0 →
        (fastSectors hash net st piece).count = piece.length →
        minPieces ≤ recovered + 1 →
        (fastChunkLoop hash net d1 minPieces st recovered ((idx, piece) :: rest)).recovered
          = recovered + 1
        ∧ (fastChunkLoop hash net d1 minPieces st recovered ((idx, piece) :: rest)).pieces
          = [(idx, (d1 idx (fastSectors hash net st piece).data).1)]) := by
  constructor
  · simp only [processChunk]
    rw [fastChunkLoop_decrypt_agnostic hash net d1 d2 minPieces hagree,
      slowChunkLoop_decrypt_agnostic hash net d1 d2 minPieces _ hagree]
  · intro idx piece rest recovered h0 hcount hmin
    have h0' : piece ≠ [] := by
      intro hnil
      rw [hnil] at h0
      exact h0 rfl
    rw [fastChunkLoop]
    simp [if_neg h0, if_neg (not_not_intro hcount), if_pos hmin, h0']

/-- Shared concrete decryption oracle that always reports failure but
returns the same bytes as `idDecrypt`. -/
def failDecrypt : Nat → List Nat → List Nat × Bool := fun _ b => (b, false)

/-- C10 witness: with a decryption oracle that always fails, chunk
processing at a concrete input is identical to processing with an
always-succeeding oracle. -/
theorem decrypt_failure_only_logged_witness :
    (∀ i b, (idDecrypt i b).1 = (failDecrypt i b).1) ∧
    processChunk lenHash demoNet idDecrypt 1 (fun _ _ => [7]) ⟨[1], []⟩
        [[(sectorSize, 1)]] 5
      = processChunk lenHash demoNet failDecrypt 1 (fun _ _ => [7]) ⟨[1], []⟩
        [[(sectorSize, 1)]] 5 :=
  ⟨fun _ _ => rfl,
    (decrypt_failure_only_logged lenHash demoNet idDecrypt failDecrypt 1
      (fun _ _ => [7]) ⟨[1], []⟩ [[(sectorSize, 1)]] 5 (fun _ _ => rfl)).1⟩

/-- Shared two-index decryption oracle (chunk index, piece index). -/
def idDecrypt2 : Nat → Nat → List Nat → List Nat × Bool := fun _ _ b => (b, true)

/-- C2 counterexample: a two-chunk file whose first chunk recovers and
whose second chunk is unrecoverable.  The run ends fatally (the file is
reported unrecoverable), but the output file — created before the loop —
already contains the first chunk's bytes: a truncated output file
remains, contradicting "produces no output file". -/
theorem recoverRun_truncated_output_cx :
    (recoverRun lenHash demoNet idDecrypt2 1 (fun _ _ => [7]) ⟨[1], []⟩
        sectorSize (sectorSize * 2) [[[(sectorSize, 1)]], [[(0, 1)]]]).1
      = .fatal [[7]] ∧ ([7] : List Nat) ≠ [] := by
  have key : ∀ d : List Nat, d.length = sectorSize →
      (recoverRun lenHash (demoNetD d) idDecrypt2 1 (fun _ _ => [7]) ⟨[1], []⟩
          sectorSize (sectorSize * 2) [[[(sectorSize, 1)]], [[(0, 1)]]]).1
        = .fatal [[7]] := by
    intro d hd
    simp [recoverRun, recoverRunLoop, processChunk, fastChunkLoop, fastSectors,
      slowChunkLoop, slowSectors, recoverSector, recoverSectorLoop, downloadSector,
      lookupCache, demoNetD, lenHash, errNoRecord, hd, List.enum, List.enumFrom,
      sectorSize]
  exact ⟨key okData okData_length, by simp⟩

/-- C2 amended: when some chunk cannot be recovered the run terminates
fatally without processing later chunks, but the chunks recovered before
the failing one were already written: on a fatal result the written list
is strictly shorter than the chunk list (a truncated prefix), while a
completed run writes exactly one byte string per chunk. -/
theorem recoverRun_fatal_truncates (hash : List Nat → Nat) (net : Nat → Nat → HostResp)
    (decrypt : Nat → Nat → List Nat → List Nat × Bool) (minPieces : Nat)
    (reconstruct : List (Nat × List Nat) → Nat → List Nat) :
    ∀ (chunks : List (List PieceRefs)) (st : OrcState) (cs rem chunkIdx : Nat),
      (match (recoverRunLoop hash net decrypt minPieces reconstruct
          st cs rem chunkIdx chunks).1 with
       | .ok w => w.length = chunks.length
       | .fatal w => w.length < chunks.length) := by
  intro chunks
  induction chunks with
  | nil => intro st cs rem ci; simp [recoverRunLoop]
  | cons chunk rest ih =>
    intro st cs rem ci
    simp only [recoverRunLoop]
    rcases hp : processChunk hash net (decrypt ci) minPieces reconstruct st chunk
        (if rem < cs then rem else cs) with ⟨st', ob, f⟩
    cases ob with
    | some bytes =>
      simp only [hp]
      have h2 := ih st' (if rem < cs then rem else cs)
        (rem - (if rem < cs then rem else cs)) (ci + 1)
      cases hr : (recoverRunLoop hash net decrypt minPieces reconstruct st'
          (if rem < cs then rem else cs) (rem - (if rem < cs then rem else cs))
          (ci + 1) rest).1 with
      | ok w =>
        rw [hr] at h2
        simp only [hr]
        simpa using h2
      | fatal w =>
        rw [hr] at h2
        simp only [hr]
        simpa using h2
    | none =>
      simp only [hp]
      simp

/-- Helper: a key found in a cache is still found after prepending entries. -/
lemma lookupCache_append_ne_none (a b : List (Nat × List Nat)) (r : Nat)
    (h : lookupCache b r ≠ none) : lookupCache (a ++ b) r ≠ none := by
  induction a with
  | nil => simpa using h
  | cons e rest ih =>
    obtain ⟨k, v⟩ := e
    by_cases hk : k = r
    · simp [lookupCache, hk]
    · simpa [lookupCache, hk] using ih

/-- Helper: cache lookups are monotone along the suffix order. -/
lemma lookupCache_suffix_ne_none {b c : List (Nat × List Nat)} (r : Nat)
    (hs : b <:+ c) (h : lookupCache b r ≠ none) : lookupCache c r ≠ none := by
  obtain ⟨a, rfl⟩ := hs
  exact lookupCache_append_ne_none a b r h

/-- Helper: the fast-path sector scan only extends the cache (append-only). -/
lemma fastSectors_cache_suffix (hash : List Nat → Nat) (net : Nat → Nat → HostResp) :
    ∀ (piece : List (Nat × Nat)) (st : OrcState),
      st.cache <:+ (fastSectors hash net st piece).st.cache := by
  intro piece
  induction piece with
  | nil =>
    intro st
    exact List.suffix_rfl
  | cons s rest ih =>
    intro st
    cases hc : lookupCache st.cache s.1 with
    | some buf =>
      simp only [fastSectors, hc]
      exact ih st
    | none =>
      cases hd : downloadSector hash net st.contracts s.2 s.1 with
      | ok buf =>
        simp only [fastSectors, hc, hd]
        exact (List.suffix_cons (s.1, buf) st.cache).trans
          (ih ⟨st.contracts, (s.1, buf) :: st.cache⟩)
      | error e =>
        by_cases hb : errNoRecord e = true
        · simp only [fastSectors, hc, hd, hb, if_true]
          exact ih ⟨removeHost st.contracts s.2, st.cache⟩
        · simp only [fastSectors, hc, hd, hb, if_false]
          exact ih st

/-- Helper: every successful fast-path fetch was a cache miss at scan
entry, is cached on exit, and no root is fetched twice in one scan. -/
lemma fastSectors_fetched_spec (hash : List Nat → Nat) (net : Nat → Nat → HostResp) :
    ∀ (piece : List (Nat × Nat)) (st : OrcState),
      (∀ pr ∈ (fastSectors hash net st piece).fetched,
          lookupCache st.cache pr.2 = none
          ∧ lookupCache (fastSectors hash net st piece).st.cache pr.2 ≠ none)
      ∧ ((fastSectors hash net st piece).fetched.map Prod.snd).Nodup := by
  intro piece
  induction piece with
  | nil =>
    intro st
    constructor
    · intro pr hpr
      simp [fastSectors] at hpr
    · simp [fastSectors]
  | cons s rest ih =>
    intro st
    cases hc : lookupCache st.cache s.1 with
    | some buf =>
      refine ⟨?_, ?_⟩
      · intro pr hpr
        simp only [fastSectors, hc] at hpr ⊢
        exact (ih st).1 pr hpr
      · simp only [fastSectors, hc]
        exact (ih st).2
    | none =>
      cases hd : downloadSector hash net st.contracts s.2 s.1 with
      | ok buf =>
        have hsuf := fastSectors_cache_suffix hash net rest ⟨st.contracts, (s.1, buf) :: st.cache⟩
        have hcached : lookupCache ((s.1, buf) :: st.cache) s.1 ≠ none := by
          simp [lookupCache]
        have hmiss := (ih ⟨st.contracts, (s.1, buf) :: st.cache⟩).1
        refine ⟨?_, ?_⟩
        · intro pr hpr
          simp only [fastSectors, hc, hd] at hpr ⊢
          rcases List.mem_cons.mp hpr with rfl | htail
          · exact ⟨hc, lookupCache_suffix_ne_none s.1 hsuf hcached⟩
          · have hm := hmiss pr htail
            refine ⟨?_, hm.2⟩
            have := hm.1
            simp only [lookupCache] at this
            by_cases he : s.1 = pr.2
            · rw [if_pos he] at this
              exact absurd this (by simp)
            · rwa [if_neg he] at this
        · simp only [fastSectors, hc, hd, List.map_cons]
          rw [List.nodup_cons]
          constructor
          · intro hmem
            obtain ⟨pr, hpr, hpr2⟩ := List.mem_map.mp hmem
            have := (hmiss pr hpr).1
            rw [hpr2] at this
            simp [lookupCache] at this
          · exact (ih ⟨st.contracts, (s.1, buf) :: st.cache⟩).2
      | error e =>
        by_cases hb : errNoRecord e = true
        · refine ⟨?_, ?_⟩
          · intro pr hpr
            simp only [fastSectors, hc, hd, hb, if_true] at hpr ⊢
            exact (ih ⟨removeHost st.contracts s.2, st.cache⟩).1 pr hpr
          · simp only [fastSectors, hc, hd, hb, if_true]
            exact (ih ⟨removeHost st.contracts s.2, st.cache⟩).2
        · refine ⟨?_, ?_⟩
          · intro pr hpr
            simp only [fastSectors, hc, hd, hb, if_false] at hpr ⊢
            exact (ih st).1 pr hpr
          · simp only [fastSectors, hc, hd, hb, if_false]
            exact (ih st).2

/-- Helper: a key absent from a larger cache is absent from its suffix. -/
lemma lookupCache_suffix_none {b c : List (Nat × List Nat)} (r : Nat)
    (hs : b <:+ c) (h : lookupCache c r = none) : lookupCache b r = none := by
  by_contra hb
  exact (lookupCache_suffix_ne_none r hs hb) h

/-- Helper: the fast-path chunk loop only extends the cache. -/
lemma fastChunkLoop_cache_suffix (hash : List Nat → Nat) (net : Nat → Nat → HostResp)
    (decrypt : Nat → List Nat → List Nat × Bool) (minPieces : Nat) :
    ∀ (ps : List (Nat × PieceRefs)) (st : OrcState) (recovered : Nat),
      st.cache <:+ (fastChunkLoop hash net decrypt minPieces st recovered ps).st.cache := by
  intro ps
  induction ps with
  | nil =>
    intro st recovered
    exact List.suffix_rfl
  | cons p rest ih =>
    intro st recovered
    obtain ⟨idx, piece⟩ := p
    by_cases h0 : piece.length = 0
    · simp only [fastChunkLoop, if_pos h0]
      exact ih st recovered
    · by_cases hcnt : (fastSectors hash net st piece).count ≠ piece.length
      · simp only [fastChunkLoop, if_neg h0, if_pos hcnt]
        exact (fastSectors_cache_suffix hash net piece st).trans (ih _ recovered)
      · by_cases hm : minPieces ≤ recovered + 1
        · simp only [fastChunkLoop, if_neg h0, if_neg hcnt, if_pos hm]
          exact fastSectors_cache_suffix hash net piece st
        · simp only [fastChunkLoop, if_neg h0, if_neg hcnt, if_neg hm]
          exact (fastSectors_cache_suffix hash net piece st).trans (ih _ _)

/-- Helper: across a whole fast-path chunk scan, every successful fetch
was a cache miss at entry and is cached at exit, and no root is fetched
twice. -/
lemma fastChunkLoop_fetched_spec (hash : List Nat → Nat) (net : Nat → Nat → HostResp)
    (decrypt : Nat → List Nat → List Nat × Bool) (minPieces : Nat) :
    ∀ (ps : List (Nat × PieceRefs)) (st : OrcState) (recovered : Nat),
      (∀ pr ∈ (fastChunkLoop hash net decrypt minPieces st recovered ps).fetched,
          lookupCache st.cache pr.2 = none
          ∧ lookupCache
              (fastChunkLoop hash net decrypt minPieces st recovered ps).st.cache pr.2
            ≠ none)
      ∧ ((fastChunkLoop hash net decrypt minPieces st recovered ps).fetched.map
          Prod.snd).Nodup := by
  intro ps
  induction ps with
  | nil =>
    intro st recovered
    constructor
    · intro pr hpr
      simp [fastChunkLoop] at hpr
    · simp [fastChunkLoop]
  | cons p rest ih =>
    intro st recovered
    obtain ⟨idx, piece⟩ := p
    by_cases h0 : piece.length = 0
    · refine ⟨?_, ?_⟩
      · intro pr hpr
        simp only [fastChunkLoop, if_pos h0] at hpr ⊢
        exact (ih st recovered).1 pr hpr
      · simp only [fastChunkLoop, if_pos h0]
        exact (ih st recovered).2
    · have hs := fastSectors_fetched_spec hash net piece st
      have hsufS := fastSectors_cache_suffix hash net piece st
      by_cases hcnt : (fastSectors hash net st piece).count ≠ piece.length
      · have io := ih (fastSectors hash net st piece).st recovered
        have hsufO := fastChunkLoop_cache_suffix hash net decrypt minPieces rest
          (fastSectors hash net st piece).st recovered
        refine ⟨?_, ?_⟩
        · intro pr hpr
          simp only [fastChunkLoop, if_neg h0, if_pos hcnt] at hpr ⊢
          rcases List.mem_append.mp hpr with hmem | hmem
          · exact ⟨(hs.1 pr hmem).1,
              lookupCache_suffix_ne_none pr.2 hsufO ((hs.1 pr hmem).2)⟩
          · exact ⟨lookupCache_suffix_none pr.2 hsufS (io.1 pr hmem).1,
              (io.1 pr hmem).2⟩
        · simp only [fastChunkLoop, if_neg h0, if_pos hcnt, List.map_append]
          refine List.Nodup.append hs.2 io.2 ?_
          intro r hr1 hr2
          obtain ⟨pr1, hpr1, hpr1e⟩ := List.mem_map.mp hr1
          obtain ⟨pr2, hpr2, hpr2e⟩ := List.mem_map.mp hr2
          have hpresent := (hs.1 pr1 hpr1).2
          have hmiss := (io.1 pr2 hpr2).1
          rw [hpr1e] at hpresent
          rw [hpr2e] at hmiss
          exact hpresent hmiss
      · by_cases hm : minPieces ≤ recovered + 1
        · refine ⟨?_, ?_⟩
          · intro pr hpr
            simp only [fastChunkLoop, if_neg h0, if_neg hcnt, if_pos hm] at hpr ⊢
            exact hs.1 pr hpr
          · simp only [fastChunkLoop, if_neg h0, if_neg hcnt, if_pos hm]
            exact hs.2
        · have io := ih (fastSectors hash net st piece).st (recovered + 1)
          have hsufO := fastChunkLoop_cache_suffix hash net decrypt minPieces rest
            (fastSectors hash net st piece).st (recovered + 1)
          refine ⟨?_, ?_⟩
          · intro pr hpr
            simp only [fastChunkLoop, if_neg h0, if_neg hcnt, if_neg hm] at hpr ⊢
            rcases List.mem_append.mp hpr with hmem | hmem
            · exact ⟨(hs.1 pr hmem).1,
                lookupCache_suffix_ne_none pr.2 hsufO ((hs.1 pr hmem).2)⟩
            · exact ⟨lookupCache_suffix_none pr.2 hsufS (io.1 pr hmem).1,
                (io.1 pr hmem).2⟩
          · simp only [fastChunkLoop, if_neg h0, if_neg hcnt, if_neg hm, List.map_append]
            refine List.Nodup.append hs.2 io.2 ?_
            intro r hr1 hr2
            obtain ⟨pr1, hpr1, hpr1e⟩ := List.mem_map.mp hr1
            obtain ⟨pr2, hpr2, hpr2e⟩ := List.mem_map.mp hr2
            have hpresent := (hs.1 pr1 hpr1).2
            have hmiss := (io.1 pr2 hpr2).1
            rw [hpr1e] at hpresent
            rw [hpr2e] at hmiss
            exact hpresent hmiss

/-- Helper: the slow-path host race never touches the cache. -/
lemma recoverSectorLoop_cache_eq (hash : List Nat → Nat) (net : Nat → Nat → HostResp) :
    ∀ (hosts : List Nat) (st : OrcState) (root : Nat),
      (recoverSectorLoop hash net st root hosts).1.cache = st.cache := by
  intro hosts
  induction hosts with
  | nil => intro st root; rfl
  | cons h rest ih =>
    intro st root
    cases hd : downloadSector hash net st.contracts h root with
    | ok buf => simp only [recoverSectorLoop, hd]
    | error e =>
      by_cases hb : errNoRecord e = true
      · simp only [recoverSectorLoop, hd, hb, if_true]
        exact ih _ root
      · simp only [recoverSectorLoop, hd, hb, if_false]
        exact ih st root

/-- Helper: the slow-path sector loop never inserts into the cache. -/
lemma slowSectors_cache_eq (hash : List Nat → Nat) (net : Nat → Nat → HostResp) :
    ∀ (piece : List (Nat × Nat)) (st : OrcState),
      (slowSectors hash net st piece).st.cache = st.cache := by
  intro piece
  induction piece with
  | nil => intro st; rfl
  | cons s rest ih =>
    intro st
    cases hc : lookupCache st.cache s.1 with
    | some buf =>
      simp only [slowSectors, hc]
      exact ih st
    | none =>
      rcases hr : recoverSector hash net st s.1 with ⟨st', ob, f⟩
      have hce : st'.cache = st.cache := by
        have := recoverSectorLoop_cache_eq hash net st.contracts st s.1
        rw [show recoverSectorLoop hash net st s.1 st.contracts
            = recoverSector hash net st s.1 from rfl, hr] at this
        exact this
      cases ob with
      | some buf =>
        simp only [slowSectors, hc, hr]
        exact (ih st').trans hce
      | none =>
        simp only [slowSectors, hc, hr]
        exact (ih st').trans hce

/-- Helper: the slow-path piece loop never inserts into the cache. -/
lemma slowChunkLoop_cache_eq (hash : List Nat → Nat) (net : Nat → Nat → HostResp)
    (decrypt : Nat → List Nat → List Nat × Bool) (minPieces : Nat)
    (chunkPieces : Nat → PieceRefs) :
    ∀ (missing : List Nat) (st : OrcState) (recovered : Nat),
      (slowChunkLoop hash net decrypt minPieces chunkPieces st recovered missing).st.cache
        = st.cache := by
  intro missing
  induction missing with
  | nil => intro st recovered; rfl
  | cons idx rest ih =>
    intro st recovered
    have hse := slowSectors_cache_eq hash net (chunkPieces idx) st
    by_cases hcnt : (slowSectors hash net st (chunkPieces idx)).count
        ≠ (chunkPieces idx).length
    · simp only [slowChunkLoop, if_pos hcnt]
      exact (ih _ recovered).trans hse
    · by_cases hm : minPieces ≤ recovered + 1
      · simp only [slowChunkLoop, if_neg hcnt, if_pos hm]
        exact hse
      · simp only [slowChunkLoop, if_neg hcnt, if_neg hm]
        exact (ih _ _).trans hse

/-- C4 amended: the recovered-sector cache is consulted before any
network fetch and is append-only; on the fast path every successful fetch
is stored in the cache, so across a whole fast-path chunk scan no root is
successfully fetched twice.  The slow path, however, never stores its
recovered sectors in the cache (there is no cache insertion in part_008
lines 361-399), so a root recovered by the slow path may be fetched from
the network again later in the same run. -/
theorem sector_cache_fast_path_only (hash : List Nat → Nat) (net : Nat → Nat → HostResp)
    (decrypt : Nat → List Nat → List Nat × Bool) (minPieces : Nat)
    (st : OrcState) (recovered : Nat) (ps : List (Nat × PieceRefs))
    (chunkPieces : Nat → PieceRefs) (missing : List Nat) :
    (∀ pr ∈ (fastChunkLoop hash net decrypt minPieces st recovered ps).fetched,
        lookupCache st.cache pr.2 = none
        ∧ lookupCache
            (fastChunkLoop hash net decrypt minPieces st recovered ps).st.cache pr.2
          ≠ none)
    ∧ ((fastChunkLoop hash net decrypt minPieces st recovered ps).fetched.map
        Prod.snd).Nodup
    ∧ st.cache <:+ (fastChunkLoop hash net decrypt minPieces st recovered ps).st.cache
    ∧ (slowChunkLoop hash net decrypt minPieces chunkPieces st recovered missing).st.cache
        = st.cache :=
  ⟨(fastChunkLoop_fetched_spec hash net decrypt minPieces ps st recovered).1,
   (fastChunkLoop_fetched_spec hash net decrypt minPieces ps st recovered).2,
   fastChunkLoop_cache_suffix hash net decrypt minPieces ps st recovered,
   slowChunkLoop_cache_eq hash net decrypt minPieces chunkPieces missing st recovered⟩

/-- Parameterised network oracle for the slow-path counterexample: host 1
fails its settings exchange; every other host serves payload `d` for the
root `sectorSize` and "could not find the desired sector" otherwise. -/
def demoNet2D (d : List Nat) : Nat → Nat → HostResp :=
  fun h r =>
    if h = 1 then ⟨false, .error .other⟩
    else if r = sectorSize then ⟨true, .ok d⟩ else ⟨true, .error .sectorNotFound⟩

/-- Shared concrete oracle serving `okData` with a broken host 1. -/
def demoNet2 : Nat → Nat → HostResp := demoNet2D okData

/-- C4 counterexample: the same content root appears in two chunks; the
first chunk recovers it through the slow path (which does not populate
the cache), so the second chunk's fast path fetches the same root from
the network again — two successful network fetches for one hash in a
single run. -/
theorem slow_path_refetches_sector_cx :
    (recoverRun lenHash demoNet2 idDecrypt2 1 (fun _ _ => [7]) ⟨[1, 2], []⟩
        sectorSize (sectorSize * 2) [[[(sectorSize, 1)]], [[(sectorSize, 2)]]]).2
      = [(2, sectorSize), (2, sectorSize)] ∧
    ¬ (((recoverRun lenHash demoNet2 idDecrypt2 1 (fun _ _ => [7]) ⟨[1, 2], []⟩
        sectorSize (sectorSize * 2) [[[(sectorSize, 1)]], [[(sectorSize, 2)]]]).2.map
          Prod.snd).Nodup) := by
  have key : ∀ d : List Nat, d.length = sectorSize →
      (recoverRun lenHash (demoNet2D d) idDecrypt2 1 (fun _ _ => [7]) ⟨[1, 2], []⟩
          sectorSize (sectorSize * 2) [[[(sectorSize, 1)]], [[(sectorSize, 2)]]]).2
        = [(2, sectorSize), (2, sectorSize)] := by
    intro d hd
    simp [recoverRun, recoverRunLoop, processChunk, fastChunkLoop, fastSectors,
      slowChunkLoop, slowSectors, recoverSector, recoverSectorLoop, downloadSector,
      lookupCache, demoNet2D, lenHash, errNoRecord, hd, List.enum, List.enumFrom,
      sectorSize]
  have k := key okData okData_length
  refine ⟨k, ?_⟩
  rw [show demoNet2 = demoNet2D okData from rfl, k]
  simp

/-- C4 witness: in a concrete fast-path scan, the fetched root was a
cache miss at entry and is present in the cache at exit. -/
theorem sector_cache_fast_path_only_witness :
    (1, sectorSize) ∈ (fastChunkLoop lenHash demoNet idDecrypt 1 ⟨[1], []⟩ 0
        [(0, [(sectorSize, 1), (0, 1)])]).fetched
    ∧ lookupCache ((⟨[1], []⟩ : OrcState)).cache sectorSize = none
    ∧ lookupCache (fastChunkLoop lenHash demoNet idDecrypt 1 ⟨[1], []⟩ 0
        [(0, [(sectorSize, 1), (0, 1)])]).st.cache sectorSize ≠ none := by
  have key : ∀ d : List Nat, d.length = sectorSize →
      (1, sectorSize) ∈ (fastChunkLoop lenHash (demoNetD d) idDecrypt 1 ⟨[1], []⟩ 0
          [(0, [(sectorSize, 1), (0, 1)])]).fetched := by
    intro d hd
    simp [fastChunkLoop, fastSectors, downloadSector, lookupCache, demoNetD, lenHash,
      errNoRecord, hd, sectorSize_ne_zero, zero_ne_sectorSize]
  have hmem : (1, sectorSize) ∈ (fastChunkLoop lenHash demoNet idDecrypt 1 ⟨[1], []⟩ 0
      [(0, [(sectorSize, 1), (0, 1)])]).fetched := by
    rw [show demoNet = demoNetD okData from rfl]
    exact key okData okData_length
  have h := (sector_cache_fast_path_only lenHash demoNet idDecrypt 1 ⟨[1], []⟩ 0
    [(0, [(sectorSize, 1), (0, 1)])] (fun _ => []) []).1 (1, sectorSize) hmem
  exact ⟨hmem, h.1, h.2⟩

/-- Helper: the slow-path host race only removes contracts. -/
lemma recoverSectorLoop_contracts_subset (hash : List Nat → Nat)
    (net : Nat → Nat → HostResp) :
    ∀ (hosts : List Nat) (st : OrcState) (root : Nat),
      (recoverSectorLoop hash net st root hosts).1.contracts ⊆ st.contracts := by
  intro hosts
  induction hosts with
  | nil => intro st root; exact fun x hx => hx
  | cons h rest ih =>
    intro st root
    cases hd : downloadSector hash net st.contracts h root with
    | ok buf =>
      simp only [recoverSectorLoop, hd]
      exact fun x hx => hx
    | error e =>
      by_cases hb : errNoRecord e = true
      · simp only [recoverSectorLoop, hd, hb, if_true]
        intro x hx
        have := ih ⟨removeHost st.contracts h, st.cache⟩ root hx
        exact List.mem_of_mem_filter this
      · simp only [recoverSectorLoop, hd, hb, if_false]
        exact ih st root

/-- Helper: a removed host is gone from the contract set. -/
lemma removeHost_not_mem (contracts : List Nat) (h : Nat) :
    h ∉ removeHost contracts h := by
  intro hmem
  have := List.of_mem_filter hmem
  simp at this

/-- Renter state (internal/renter, part_004): the current chain height
and the contract set mapping host keys to expiration heights. -/
structure Renter where
  currentHeight : Nat
  contracts : List (Nat × Nat)

/-- First-match association lookup (models the Go contracts map). -/
def lookupAssoc : List (Nat × Nat) → Nat → Option Nat
  | [], _ => none
  | (k, v) :: rest, key => if k = key then some v else lookupAssoc rest key

/-- Model of `Renter.HostContract` (part_004 lines 217-227): errors unless a
contract exists with expiration strictly above the current height. -/
def Renter.hostContract (r : Renter) (h : Nat) : Option Nat :=
  match lookupAssoc r.contracts h with
  | none => none
  | some exp => if exp ≤ r.currentHeight then none else some exp

/-- Model of `Renter.Hosts` (part_004 lines 229-239): hosts whose contract has not
expired. -/
def Renter.hosts (r : Renter) : List Nat :=
  (r.contracts.filter (fun c => r.currentHeight < c.2)).map Prod.fst

/-- Model of `Renter.RemoveHostContract` (part_004 lines 250-255): delete the
host's contract. -/
def Renter.removeHostContract (r : Renter) (h : Nat) : Renter :=
  ⟨r.currentHeight, r.contracts.filter (fun c => c.1 ≠ h)⟩

/-- State mutations a recovery run performs on the renter: contract
removal (on ContractMissing) and the background height refresh.  No
operation of the run adds a contract. -/
inductive RunOp where
  | removeHost (h : Nat)
  | refreshHeight (height : Nat)

/-- Apply one run operation. -/
def applyOp (r : Renter) : RunOp → Renter
  | .removeHost h => r.removeHostContract h
  | .refreshHeight hh => ⟨hh, r.contracts⟩

/-- Apply a sequence of run operations. -/
def applyOps (r : Renter) : List RunOp → Renter
  | [] => r
  | op :: rest => applyOps (applyOp r op) rest

/-- Height refreshes observe the chain tip, which is nondecreasing over
the course of a run. -/
def opsMonotone (r : Renter) : List RunOp → Prop
  | [] => True
  | op :: rest =>
    (match op with
     | .refreshHeight hh => r.currentHeight ≤ hh
     | _ => True) ∧ opsMonotone (applyOp r op) rest

/-- Helper: one monotone run operation can only shrink the host set. -/
lemma applyOp_hosts_subset (r : Renter) (op : RunOp)
    (hmono : match op with
     | .refreshHeight hh => r.currentHeight ≤ hh
     | _ => True) :
    (applyOp r op).hosts ⊆ r.hosts := by
  cases op with
  | removeHost h =>
    intro x hx
    simp only [applyOp, Renter.removeHostContract, Renter.hosts, List.mem_map,
      List.mem_filter] at hx ⊢
    obtain ⟨c, ⟨⟨hc1, hc2⟩, hc3⟩, hc4⟩ := hx
    exact ⟨c, ⟨hc1, hc3⟩, hc4⟩
  | refreshHeight hh =>
    intro x hx
    simp only [applyOp, Renter.hosts, List.mem_map, List.mem_filter] at hx ⊢
    obtain ⟨c, ⟨hc1, hc2⟩, hc3⟩ := hx
    refine ⟨c, ⟨hc1, ?_⟩, hc3⟩
    simp only [decide_eq_true_eq] at hc2 ⊢
    exact lt_of_le_of_lt hmono hc2

/-- Helper: monotone run operations only shrink the host set. -/
lemma applyOps_hosts_subset :
    ∀ (ops : List RunOp) (r : Renter), opsMonotone r ops →
      (applyOps r ops).hosts ⊆ r.hosts := by
  intro ops
  induction ops with
  | nil => intro r _; exact fun x hx => hx
  | cons op rest ih =>
    intro r hmono
    exact fun x hx =>
      applyOp_hosts_subset r op hmono.1 (ih (applyOp r op) hmono.2 hx)

/-- Helper: filtering preserves the absence of a key. -/
lemma lookupAssoc_filter_none (l : List (Nat × Nat)) (p : Nat × Nat → Bool) (k : Nat)
    (h : lookupAssoc l k = none) : lookupAssoc (l.filter p) k = none := by
  induction l with
  | nil => rfl
  | cons a rest ih =>
    simp only [lookupAssoc] at h
    by_cases hk : a.1 = k
    · rw [if_pos hk] at h
      exact absurd h (by simp)
    · rw [if_neg hk] at h
      rcases a with ⟨k', v⟩
      by_cases hp : p (k', v)
      · simp only [List.filter_cons, hp, if_true, lookupAssoc]
        rw [if_neg hk]
        exact ih h
      · simp only [List.filter_cons, hp]
        simp only [Bool.false_eq_true, if_false]
        exact ih h

/-- Helper: a removed host has no contract entry. -/
lemma removeHostContract_lookup_none (r : Renter) (h : Nat) :
    lookupAssoc (r.removeHostContract h).contracts h = none := by
  simp only [Renter.removeHostContract]
  induction r.contracts with
  | nil => rfl
  | cons a rest ih =>
    by_cases hk : a.1 = h
    · simp only [List.filter_cons, hk]
      simpa using ih
    · simp only [List.filter_cons, decide_eq_true_eq]
      rw [if_pos hk]
      simp only [lookupAssoc]
      rw [if_neg hk]
      exact ih

/-- Helper: run operations never create a contract entry. -/
lemma applyOps_lookup_none :
    ∀ (ops : List RunOp) (r : Renter) (h : Nat),
      lookupAssoc r.contracts h = none →
      lookupAssoc (applyOps r ops).contracts h = none := by
  intro ops
  induction ops with
  | nil => intro r h hn; exact hn
  | cons op rest ih =>
    intro r h hn
    apply ih
    cases op with
    | removeHost h2 =>
      exact lookupAssoc_filter_none _ _ _ hn
    | refreshHeight hh => exact hn

/-- Helper: the pruned host is absent from the availability set. -/
lemma removeHostContract_not_mem_hosts (r : Renter) (h : Nat) :
    h ∉ (r.removeHostContract h).hosts := by
  intro hmem
  simp only [Renter.hosts, Renter.removeHostContract, List.mem_map,
    List.mem_filter] at hmem
  obtain ⟨c, ⟨⟨hc1, hne⟩, hht⟩, hfst⟩ := hmem
  simp only [decide_eq_true_eq] at hne
  exact hne (by rw [hfst])

/-- C5: a host whose sector response classifies as ContractMissing is
removed from the availability set by the orchestrator's first failed
attempt: after the race step it is gone from the contract set (which only
ever shrinks), any later `downloadSector` against it fails locally at
session creation, for every network oracle — the host is never contacted
again; and at the renter level, after `RemoveHostContract` the host is
outside `Hosts()` and has no `HostContract` for the rest of a run (whose
operations are removals and monotone height refreshes), while the
availability set only shrinks. -/
theorem contractMissing_host_pruned (hash : List Nat → Nat) (net : Nat → Nat → HostResp)
    (st : OrcState) (root h : Nat) (rest : List Nat)
    (hset : (net h root).settingsOk = true)
    (hresp : (net h root).readResult = .error .contractNotFound) :
    h ∉ (recoverSectorLoop hash net st root (h :: rest)).1.contracts
    ∧ (recoverSectorLoop hash net st root (h :: rest)).1.contracts ⊆ st.contracts
    ∧ (∀ (net2 : Nat → Nat → HostResp) (c : List Nat) (r2 : Nat),
        h ∉ c → downloadSector hash net2 c h r2 = .error .sessionFailed)
    ∧ (∀ (r : Renter) (ops : List RunOp),
        opsMonotone (r.removeHostContract h) ops →
        h ∉ (applyOps (r.removeHostContract h) ops).hosts
        ∧ (applyOps (r.removeHostContract h) ops).hostContract h = none
        ∧ (applyOps (r.removeHostContract h) ops).hosts ⊆ r.hosts) := by
  have part3 : ∀ (net2 : Nat → Nat → HostResp) (c : List Nat) (r2 : Nat),
      h ∉ c → downloadSector hash net2 c h r2 = .error .sessionFailed := by
    intro net2 c r2 hnotin
    simp [downloadSector, hnotin]
  have part4 : ∀ (r : Renter) (ops : List RunOp),
      opsMonotone (r.removeHostContract h) ops →
      h ∉ (applyOps (r.removeHostContract h) ops).hosts
      ∧ (applyOps (r.removeHostContract h) ops).hostContract h = none
      ∧ (applyOps (r.removeHostContract h) ops).hosts ⊆ r.hosts := by
    intro r ops hmono
    have hsub := applyOps_hosts_subset ops (r.removeHostContract h) hmono
    have hsub2 : (r.removeHostContract h).hosts ⊆ r.hosts :=
      applyOp_hosts_subset r (.removeHost h) trivial
    have hlook : lookupAssoc (applyOps (r.removeHostContract h) ops).contracts h
        = none :=
      applyOps_lookup_none ops (r.removeHostContract h) h
        (removeHostContract_lookup_none r h)
    refine ⟨?_, ?_, fun x hx => hsub2 (hsub hx)⟩
    · intro hmem
      exact removeHostContract_not_mem_hosts r h (hsub hmem)
    · simp [Renter.hostContract, hlook]
  by_cases hin : h ∈ st.contracts
  · have hd : downloadSector hash net st.contracts h root
        = .error (.readFailed .contractNotFound) := by
      simp [downloadSector, hin, hset, hresp]
    have hb : errNoRecord (.readFailed .contractNotFound) = true := rfl
    have hstep : recoverSectorLoop hash net st root (h :: rest)
        = recoverSectorLoop hash net ⟨removeHost st.contracts h, st.cache⟩ root rest := by
      simp only [recoverSectorLoop, hd, hb, if_true]
    rw [hstep]
    have hsub := recoverSectorLoop_contracts_subset hash net rest
      ⟨removeHost st.contracts h, st.cache⟩ root
    refine ⟨?_, ?_, part3, part4⟩
    · intro hmem
      exact removeHost_not_mem st.contracts h (hsub hmem)
    · exact fun x hx => List.mem_of_mem_filter (hsub hx)
  · have hd : downloadSector hash net st.contracts h root = .error .sessionFailed := by
      simp [downloadSector, hin]
    have hb : errNoRecord .sessionFailed = false := rfl
    have hstep : recoverSectorLoop hash net st root (h :: rest)
        = recoverSectorLoop hash net st root rest := by
      simp [recoverSectorLoop, hd, hb]
    rw [hstep]
    have hsub := recoverSectorLoop_contracts_subset hash net rest st root
    exact ⟨fun hmem => hin (hsub hmem), hsub, part3, part4⟩

/-- C5 witness: a concrete host that always reports a missing contract is
pruned by the first race step. -/
theorem contractMissing_host_pruned_witness :
    ((fun (_ : Nat) (_ : Nat) => (⟨true, .error .contractNotFound⟩ : HostResp)) 5 0).settingsOk
      = true ∧
    ((fun (_ : Nat) (_ : Nat) => (⟨true, .error .contractNotFound⟩ : HostResp)) 5 0).readResult
      = .error .contractNotFound ∧
    (5 : Nat) ∉ (recoverSectorLoop lenHash
        (fun _ _ => ⟨true, .error .contractNotFound⟩) ⟨[5], []⟩ 0 [5]).1.contracts :=
  ⟨rfl, rfl,
    (contractMissing_host_pruned lenHash (fun _ _ => ⟨true, .error .contractNotFound⟩)
      ⟨[5], []⟩ 0 5 [] rfl rfl).1⟩

/-- Chunk-count computation of `siafile.Load` (lines 168-172):
`chunks := fileSize / chunkSize; if fileSize % chunkSize != 0 || chunks == 0 { chunks++ }`. -/
def numChunks (fileSize chunkSize : Nat) : Nat :=
  if fileSize % chunkSize ≠ 0 ∨ fileSize / chunkSize = 0 then fileSize / chunkSize + 1
  else fileSize / chunkSize

/-- C9: the decoder reads `max 1 ⌈fileSize / chunkSize⌉` chunk records;
in particular a zero-size file still decodes to one chunk. -/
theorem numChunks_eq_max_ceil (fileSize chunkSize : Nat) (hcs : 0 < chunkSize) :
    numChunks fileSize chunkSize = max 1 ((fileSize + chunkSize - 1) / chunkSize) := by
  have hmod : chunkSize * (fileSize / chunkSize) + fileSize % chunkSize = fileSize :=
    Nat.div_add_mod fileSize chunkSize
  have hrlt : fileSize % chunkSize < chunkSize := Nat.mod_lt _ hcs
  have hceil : (fileSize + chunkSize - 1) / chunkSize
      = fileSize / chunkSize + (fileSize % chunkSize + chunkSize - 1) / chunkSize := by
    have harg : fileSize + chunkSize - 1
        = chunkSize * (fileSize / chunkSize) + (fileSize % chunkSize + chunkSize - 1) := by
      omega
    rw [harg, Nat.mul_add_div hcs]
  rw [hceil]
  by_cases hr0 : fileSize % chunkSize = 0
  · have h2 : (fileSize % chunkSize + chunkSize - 1) / chunkSize = 0 :=
      Nat.div_eq_of_lt (by omega)
    rw [h2]
    by_cases hq0 : fileSize / chunkSize = 0
    · simp [numChunks, hr0, hq0]
    · rw [numChunks, if_neg (by simp [hr0, hq0])]
      rw [Nat.add_zero]
      exact (Nat.max_eq_right (Nat.one_le_iff_ne_zero.mpr hq0)).symm
  · have h2 : (fileSize % chunkSize + chunkSize - 1) / chunkSize = 1 := by
      have he : fileSize % chunkSize + chunkSize - 1
          = (fileSize % chunkSize - 1) + chunkSize := by omega
      rw [he, Nat.add_div_right _ hcs, Nat.div_eq_of_lt (by omega)]
    rw [h2]
    rw [numChunks, if_pos (Or.inl hr0)]
    exact (Nat.max_eq_right (Nat.le_add_left 1 _)).symm

/-- C9 witness: a zero-size file decodes to exactly one chunk. -/
theorem numChunks_eq_max_ceil_witness :
    0 < 4 ∧ numChunks 0 4 = max 1 ((0 + 4 - 1) / 4) ∧ numChunks 0 4 = 1 :=
  ⟨by decide, numChunks_eq_max_ceil 0 4 (by decide), by decide⟩

/-- The per-chunk byte counts produced by the outer loop's mutable
`chunkSize`/`remainingSize` bookkeeping (part_008 lines 286-294). -/
def writeLengths : Nat → Nat → Nat → List Nat
  | 0, _, _ => []
  | n + 1, cs, rem =>
    (if rem < cs then rem else cs)
      :: writeLengths n (if rem < cs then rem else cs) (rem - (if rem < cs then rem else cs))

/-- Helper: a successful chunk result is always a reconstruction output
of the requested chunk length. -/
lemma processChunk_some_shape (hash : List Nat → Nat) (net : Nat → Nat → HostResp)
    (decrypt : Nat → List Nat → List Nat × Bool) (minPieces : Nat)
    (reconstruct : List (Nat × List Nat) → Nat → List Nat)
    (st : OrcState) (pieces : List PieceRefs) (chunkLen : Nat)
    (st' : OrcState) (bytes : List Nat) (f : List (Nat × Nat))
    (h : processChunk hash net decrypt minPieces reconstruct st pieces chunkLen
        = (st', some bytes, f)) :
    ∃ ps, bytes = reconstruct ps chunkLen := by
  simp only [processChunk] at h
  split at h
  · refine ⟨(fastChunkLoop hash net decrypt minPieces st 0 pieces.enum).pieces, ?_⟩
    have := congrArg (fun t => t.2.1) h
    simpa using this.symm
  · split at h
    · refine ⟨(fastChunkLoop hash net decrypt minPieces st 0 pieces.enum).pieces
        ++ (slowChunkLoop hash net decrypt minPieces (fun i => pieces.getD i [])
            (fastChunkLoop hash net decrypt minPieces st 0 pieces.enum).st
            (fastChunkLoop hash net decrypt minPieces st 0 pieces.enum).recovered
            (fastChunkLoop hash net decrypt minPieces st 0 pieces.enum).missing).pieces, ?_⟩
      have := congrArg (fun t => t.2.1) h
      simpa using this.symm
    · have := congrArg (fun t => t.2.1) h
      simp at this

/-- Helper: a completed run writes chunks whose byte lengths follow the
`writeLengths` recurrence. -/
lemma recoverRunLoop_ok_lengths (hash : List Nat → Nat) (net : Nat → Nat → HostResp)
    (decrypt : Nat → Nat → List Nat → List Nat × Bool) (minPieces : Nat)
    (reconstruct : List (Nat × List Nat) → Nat → List Nat)
    (hrec : ∀ ps n, (reconstruct ps n).length = n) :
    ∀ (chunks : List (List PieceRefs)) (st : OrcState) (cs rem ci : Nat)
      (w : List (List Nat)) (f : List (Nat × Nat)),
      recoverRunLoop hash net decrypt minPieces reconstruct st cs rem ci chunks
        = (.ok w, f) →
      w.map List.length = writeLengths chunks.length cs rem := by
  intro chunks
  induction chunks with
  | nil =>
    intro st cs rem ci w f hrun
    simp only [recoverRunLoop] at hrun
    injection hrun with h1 h2
    injection h1 with h3
    subst h3
    rfl
  | cons chunk rest ih =>
    intro st cs rem ci w f hrun
    rcases hp : processChunk hash net (decrypt ci) minPieces reconstruct st chunk
        (if rem < cs then rem else cs) with ⟨st', ob, fc⟩
    rcases hr : recoverRunLoop hash net decrypt minPieces reconstruct st'
        (if rem < cs then rem else cs) (rem - (if rem < cs then rem else cs))
        (ci + 1) rest with ⟨res, fs⟩
    cases ob with
    | none =>
      simp only [recoverRunLoop, hp] at hrun
      exact absurd hrun (by simp)
    | some bytes =>
      cases res with
      | fatal w2 =>
        simp only [recoverRunLoop, hp, hr] at hrun
        exact absurd hrun (by simp)
      | ok w2 =>
        simp only [recoverRunLoop, hp, hr] at hrun
        simp only [Prod.mk.injEq, RunResult.ok.injEq] at hrun
        obtain ⟨hw, hf⟩ := hrun
        subst hw
        obtain ⟨ps, hps⟩ := processChunk_some_shape hash net (decrypt ci) minPieces
          reconstruct st chunk (if rem < cs then rem else cs) st' bytes fc hp
        have ihh := ih st' (if rem < cs then rem else cs)
          (rem - (if rem < cs then rem else cs)) (ci + 1) w2 fs hr
        simp only [writeLengths, List.map_cons, List.length_cons, ihh]
        rw [hps, hrec]

/-- Helper: with the chunk count produced by the loader, the emitted
lengths are full chunks followed by one truncated final chunk. -/
lemma writeLengths_eq_replicate :
    ∀ (n cs rem : Nat), 0 < cs → 1 ≤ n → (n - 1) * cs ≤ rem → rem ≤ n * cs →
      writeLengths n cs rem = List.replicate (n - 1) cs ++ [rem - (n - 1) * cs] := by
  intro n
  induction n with
  | zero =>
    intro cs rem _ h1 _ _
    exact absurd h1 (by omega)
  | succ m ih =>
    intro cs rem hcs _ hlo hhi
    cases m with
    | zero =>
      rw [writeLengths]
      by_cases hlt : rem < cs
      · simp [hlt, writeLengths]
      · have hre : rem = cs := by
          have : rem ≤ cs := by simpa using hhi
          omega
        simp [hlt, writeLengths, hre]
    | succ k =>
      have hmul1 : (k + 1) * cs = k * cs + cs := Nat.succ_mul k cs
      have hmul2 : (k + 1 + 1) * cs = (k + 1) * cs + cs := Nat.succ_mul (k + 1) cs
      have hlo2 : (k + 1) * cs ≤ rem := by simpa using hlo
      have hhi2 : rem ≤ (k + 1 + 1) * cs := by simpa using hhi
      have hcsle : cs ≤ (k + 1) * cs := Nat.le_mul_of_pos_left cs (Nat.succ_pos k)
      have hge : ¬ rem < cs := by omega
      rw [writeLengths, if_neg hge]
      have hlo3 : k * cs ≤ rem - cs := by omega
      have hhi3 : rem - cs ≤ (k + 1) * cs := by omega
      have ihh := ih cs (rem - cs) hcs (Nat.le_add_left 1 k)
        (by simpa using hlo3) (by simpa using hhi3)
      rw [ihh]
      have e3 : rem - cs - k * cs = rem - (k + 1) * cs := by omega
      simp [List.replicate_succ, e3]

/-- Helper: the loader's chunk count brackets the file size. -/
lemma numChunks_bounds (fileSize cs : Nat) (hcs : 0 < cs) :
    1 ≤ numChunks fileSize cs
    ∧ (numChunks fileSize cs - 1) * cs ≤ fileSize
    ∧ fileSize ≤ numChunks fileSize cs * cs := by
  have hmod := Nat.div_add_mod fileSize cs
  have hrlt : fileSize % cs < cs := Nat.mod_lt _ hcs
  unfold numChunks
  generalize hq : fileSize / cs = q at hmod ⊢
  generalize hr : fileSize % cs = r at hmod hrlt ⊢
  by_cases hcond : r ≠ 0 ∨ q = 0
  · rw [if_pos hcond]
    refine ⟨Nat.le_add_left 1 q, ?_, ?_⟩
    · have e : (q + 1 - 1) * cs = cs * q := by
        simp [Nat.mul_comm]
      rw [e]
      omega
    · have e : (q + 1) * cs = cs * q + cs := by
        rw [Nat.succ_mul, Nat.mul_comm]
      rw [e]
      omega
  · rw [if_neg hcond]
    push_neg at hcond
    obtain ⟨hr0, hq0⟩ := hcond
    have e : q * cs = cs * q := Nat.mul_comm _ _
    have hsub : (q - 1) * cs ≤ q * cs := Nat.mul_le_mul_right cs (Nat.sub_le _ _)
    exact ⟨by omega, by omega, by omega⟩

/-- C7: on a successful recovery run over the loader's chunk count, every
chunk is written with exactly `pieceSize * minPieces` bytes except the
final chunk, which is truncated to the remaining length, the chunks
appear in index order, and the total output length equals the declared
file size. -/
theorem recovered_chunk_lengths (hash : List Nat → Nat) (net : Nat → Nat → HostResp)
    (decrypt : Nat → Nat → List Nat → List Nat × Bool) (minPieces : Nat)
    (reconstruct : List (Nat × List Nat) → Nat → List Nat)
    (pieceSize fileSize : Nat) (st : OrcState) (chunks : List (List PieceRefs))
    (w : List (List Nat)) (f : List (Nat × Nat))
    (hcs : 0 < pieceSize * minPieces)
    (hrec : ∀ ps n, (reconstruct ps n).length = n)
    (hnum : chunks.length = numChunks fileSize (pieceSize * minPieces))
    (hrun : recoverRun hash net decrypt minPieces reconstruct st pieceSize fileSize chunks
        = (.ok w, f)) :
    w.map List.length
      = List.replicate (numChunks fileSize (pieceSize * minPieces) - 1)
          (pieceSize * minPieces)
        ++ [fileSize
            - (numChunks fileSize (pieceSize * minPieces) - 1) * (pieceSize * minPieces)]
    ∧ (w.map List.length).sum = fileSize := by
  have hlen := recoverRunLoop_ok_lengths hash net decrypt minPieces reconstruct hrec
    chunks st (pieceSize * minPieces) fileSize 0 w f hrun
  obtain ⟨h1, h2, h3⟩ := numChunks_bounds fileSize (pieceSize * minPieces) hcs
  rw [hnum] at hlen
  have heq := writeLengths_eq_replicate (numChunks fileSize (pieceSize * minPieces))
    (pieceSize * minPieces) fileSize hcs h1 h2 h3
  rw [hlen, heq]
  refine ⟨rfl, ?_⟩
  rw [List.sum_append]
  simp only [List.sum_replicate, smul_eq_mul, List.sum_cons, List.sum_nil]
  omega

/-- C7 witness: a one-chunk file of exactly one chunk size recovers with
output length equal to the declared file size. -/
theorem recovered_chunk_lengths_witness :
    0 < sectorSize * 1 ∧
    ([[[(sectorSize, 1)]]] : List (List PieceRefs)).length
      = numChunks sectorSize (sectorSize * 1) ∧
    (([List.replicate sectorSize 7] : List (List Nat)).map List.length).sum
      = sectorSize := by
  have hcs : 0 < sectorSize * 1 := by rw [sectorSize]; decide
  have hnum : ([[[(sectorSize, 1)]]] : List (List PieceRefs)).length
      = numChunks sectorSize (sectorSize * 1) := by
    rw [sectorSize]
    decide
  have hrec : ∀ (ps : List (Nat × List Nat)) (n : Nat),
      ((fun (_ : List (Nat × List Nat)) (n : Nat) => List.replicate n 7) ps n).length
        = n := by
    intro ps n
    simp
  have key : ∀ d : List Nat, d.length = sectorSize →
      recoverRun lenHash (demoNetD d) idDecrypt2 1
          (fun _ n => List.replicate n 7) ⟨[1], []⟩ sectorSize sectorSize
          [[[(sectorSize, 1)]]]
        = (.ok [List.replicate sectorSize 7], [(1, sectorSize)]) := by
    intro d hd
    simp [recoverRun, recoverRunLoop, processChunk, fastChunkLoop, fastSectors,
      downloadSector, lookupCache, demoNetD, lenHash, errNoRecord, hd,
      List.enum, List.enumFrom]
  have hrun : recoverRun lenHash demoNet idDecrypt2 1
      (fun _ n => List.replicate n 7) ⟨[1], []⟩ sectorSize sectorSize
      [[[(sectorSize, 1)]]]
      = (.ok [List.replicate sectorSize 7], [(1, sectorSize)]) := by
    rw [show demoNet = demoNetD okData from rfl]
    exact key okData okData_length
  exact ⟨hcs, hnum,
    (recovered_chunk_lengths lenHash demoNet idDecrypt2 1
      (fun _ n => List.replicate n 7) sectorSize sectorSize ⟨[1], []⟩
      [[[(sectorSize, 1)]]] [List.replicate sectorSize 7] [(1, sectorSize)]
      hcs hrec hnum hrun).2⟩

/-- Little-endian value of a byte list (models `binary.LittleEndian`). -/
def leVal : List Nat → Nat
  | [] => 0
  | b :: rest => b + 256 * leVal rest

/-- Failure cases of the `siafile.Load` chunk-table decoder. -/
inductive LoadErr where
  | readChunk
  | readPieceCount
  | readPiece
  | pieceIndexRange
  | hostIndexRange
  | unknownCoder
deriving DecidableEq

/-- One decoded piece record `(pieceIndex, hostTableIndex, merkleRoot)`. -/
structure PieceRec where
  pieceIndex : Nat
  hostIndex : Nat
  root : List Nat
deriving DecidableEq

/-- Decidable success marker for `Except` results. -/
def exOk {ε α : Type} : Except ε α → Bool
  | .ok _ => true
  | .error _ => false

/-- Piece-record parser of `Load` (siafile.go lines 196-215): reads a
4-byte little-endian piece index, a 4-byte host index and a 32-byte root
from the 4096-byte record buffer (failing when the buffer runs out), then
checks `pieceIndex < numPieces` and `hostIndex < hostTableSize`. -/
def parseRecords (numPieces hostTableSize : Nat) : Nat → List Nat → Except LoadErr (List PieceRec)
  | 0, _ => .ok []
  | n + 1, buf =>
    if buf.length < 4 then .error .readPiece
    else if buf.length < 8 then .error .readPiece
    else if buf.length < 40 then .error .readPiece
    else if numPieces ≤ leVal (buf.take 4) then .error .pieceIndexRange
    else if hostTableSize ≤ leVal ((buf.drop 4).take 4) then .error .hostIndexRange
    else
      match parseRecords numPieces hostTableSize n (buf.drop 40) with
      | .error e => .error e
      | .ok rest =>
        .ok (⟨leVal (buf.take 4), leVal ((buf.drop 4).take 4), (buf.drop 8).take 32⟩ :: rest)

/-- A decoded chunk: `numPieces` slots, each a list of
(merkleRoot, hostKey) references. -/
abbrev LoadChunk := List (List (List Nat × Nat))

/-- Model of `chunk.Pieces[pieceIndex] = append(chunk.Pieces[pieceIndex], piece)`. -/
def appendAt : List (List (List Nat × Nat)) → Nat → (List Nat × Nat) → List (List (List Nat × Nat))
  | [], _, _ => []
  | l :: rest, 0, a => (l ++ [a]) :: rest
  | l :: rest, n + 1, a => l :: appendAt rest n a

/-- Assemble a chunk from its records: slots start empty and each record
is appended at its piece index with the host key resolved from the table. -/
def mkChunk (numPieces : Nat) (hostTable : List Nat) (records : List PieceRec) : LoadChunk :=
  records.foldl
    (fun acc pr => appendAt acc pr.pieceIndex (pr.root, hostTable.getD pr.hostIndex 0))
    (List.replicate numPieces [])

/-- Chunk-table loop of `Load` (siafile.go lines 174-217): reads `n`
records of up to 4096 bytes into a REUSED buffer.  `io.ReadFull` with
zero bytes available yields `io.EOF` (an error), while a partial read
yields `io.ErrUnexpectedEOF`, which the code tolerates — the freshly read
prefix overlays the previous record's bytes and parsing proceeds on the
stale tail. -/
def loadChunks (numPieces hostTableSize : Nat) (hostTable : List Nat) :
    Nat → List Nat → List Nat → Except LoadErr (List LoadChunk)
  | 0, _, _ => .ok []
  | n + 1, buf, stream =>
    if stream.length = 0 then .error .readChunk
    else if ((stream.take 4096 ++ buf.drop (stream.take 4096).length).drop 17).length < 2 then
      .error .readPieceCount
    else
      match parseRecords numPieces hostTableSize
          (leVal (((stream.take 4096 ++ buf.drop (stream.take 4096).length).drop 17).take 2))
          (((stream.take 4096 ++ buf.drop (stream.take 4096).length).drop 17).drop 2) with
      | .error e => .error e
      | .ok records =>
        match loadChunks numPieces hostTableSize hostTable n
            (stream.take 4096 ++ buf.drop (stream.take 4096).length) (stream.drop 4096) with
        | .error e => .error e
        | .ok rest2 => .ok (mkChunk numPieces hostTable records :: rest2)

/-- Model of `InitErasureCoder` (siafile.go lines 110-119): type tags 1 (RSCode)
and 2 (RSSubCode) are recognised; the pair is (MinPieces, NumPieces).
Parameter validation performed inside the external Reed-Solomon library
(positive piece counts) is outside this model. -/
def initErasureCoder (ecType dataPieces parityPieces : Nat) : Except LoadErr (Nat × Nat) :=
  if ecType = 1 ∨ ecType = 2 then .ok (dataPieces, dataPieces + parityPieces)
  else .error .unknownCoder

/-- The chunk-table portion of `Load`: erasure-coder init, chunk count,
then the chunk loop over the bytes following the header (the stream
argument), starting from a zeroed 4096-byte buffer. -/
def loadFile (ecType dataPieces parityPieces fileSize pieceSize : Nat)
    (hostTable : List Nat) (stream : List Nat) : Except LoadErr (List LoadChunk) :=
  match initErasureCoder ecType dataPieces parityPieces with
  | .error e => .error e
  | .ok p =>
    loadChunks p.2 hostTable.length hostTable
      (numChunks fileSize (pieceSize * p.1)) (List.replicate 4096 0) stream

/-- Boolean specification of record parsing: a record decodes iff at
least 40 bytes remain and both indices are in range. -/
def recordsOk (numPieces hostTableSize : Nat) : Nat → List Nat → Bool
  | 0, _ => true
  | n + 1, buf =>
    if buf.length < 40 then false
    else if numPieces ≤ leVal (buf.take 4) then false
    else if hostTableSize ≤ leVal ((buf.drop 4).take 4) then false
    else recordsOk numPieces hostTableSize n (buf.drop 40)

/-- Boolean specification of the chunk loop: each expected chunk record
needs at least one byte of stream (a fully absent record fails; a partial
one is tolerated), and its piece records must all parse in range. -/
def chunksOk (numPieces hostTableSize : Nat) : Nat → List Nat → List Nat → Bool
  | 0, _, _ => true
  | n + 1, buf, stream =>
    if stream.length = 0 then false
    else if ((stream.take 4096 ++ buf.drop (stream.take 4096).length).drop 17).length < 2 then
      false
    else
      recordsOk numPieces hostTableSize
          (leVal (((stream.take 4096 ++ buf.drop (stream.take 4096).length).drop 17).take 2))
          (((stream.take 4096 ++ buf.drop (stream.take 4096).length).drop 17).drop 2)
        && chunksOk numPieces hostTableSize n
          (stream.take 4096 ++ buf.drop (stream.take 4096).length) (stream.drop 4096)

/-- Boolean specification of `loadFile`: recognised type tag and a valid
chunk table. -/
def loadOk (ecType dataPieces parityPieces fileSize pieceSize : Nat)
    (hostTable : List Nat) (stream : List Nat) : Bool :=
  decide (ecType = 1 ∨ ecType = 2)
    && chunksOk (dataPieces + parityPieces) hostTable.length
      (numChunks fileSize (pieceSize * dataPieces)) (List.replicate 4096 0) stream

/-- Helper: record parsing succeeds exactly per its Boolean specification. -/
lemma parseRecords_isOk (numPieces hostTableSize : Nat) :
    ∀ (n : Nat) (buf : List Nat),
      exOk (parseRecords numPieces hostTableSize n buf)
        = recordsOk numPieces hostTableSize n buf := by
  intro n
  induction n with
  | zero => intro buf; rfl
  | succ m ih =>
    intro buf
    rw [parseRecords, recordsOk]
    by_cases h4 : buf.length < 4
    · rw [if_pos h4, if_pos (by omega)]
      rfl
    · rw [if_neg h4]
      by_cases h8 : buf.length < 8
      · rw [if_pos h8, if_pos (by omega)]
        rfl
      · rw [if_neg h8]
        by_cases h40 : buf.length < 40
        · rw [if_pos h40, if_pos h40]
          rfl
        · rw [if_neg h40, if_neg h40]
          by_cases hpi : numPieces ≤ leVal (buf.take 4)
          · rw [if_pos hpi, if_pos hpi]
            rfl
          · rw [if_neg hpi, if_neg hpi]
            by_cases hhi : hostTableSize ≤ leVal ((buf.drop 4).take 4)
            · rw [if_pos hhi, if_pos hhi]
              rfl
            · rw [if_neg hhi, if_neg hhi]
              have hrec := ih (buf.drop 40)
              cases hp : parseRecords numPieces hostTableSize m (buf.drop 40) with
              | error e =>
                rw [hp] at hrec
                exact hrec
              | ok rest =>
                rw [hp] at hrec
                exact hrec

/-- Helper: the chunk loop succeeds exactly per its Boolean specification. -/
lemma loadChunks_isOk (numPieces hostTableSize : Nat) (hostTable : List Nat) :
    ∀ (n : Nat) (buf stream : List Nat),
      exOk (loadChunks numPieces hostTableSize hostTable n buf stream)
        = chunksOk numPieces hostTableSize n buf stream := by
  intro n
  induction n with
  | zero => intro buf stream; rfl
  | succ m ih =>
    intro buf stream
    rw [loadChunks, chunksOk]
    by_cases hs : stream.length = 0
    · rw [if_pos hs, if_pos hs]
      rfl
    · rw [if_neg hs, if_neg hs]
      by_cases hb : ((stream.take 4096 ++ buf.drop (stream.take 4096).length).drop 17).length < 2
      · rw [if_pos hb, if_pos hb]
        rfl
      · rw [if_neg hb, if_neg hb]
        have hrec := ih (stream.take 4096 ++ buf.drop (stream.take 4096).length)
          (stream.drop 4096)
        cases hp : parseRecords numPieces hostTableSize
            (leVal (((stream.take 4096 ++ buf.drop (stream.take 4096).length).drop 17).take 2))
            (((stream.take 4096 ++ buf.drop (stream.take 4096).length).drop 17).drop 2) with
        | error e =>
          have hfalse : recordsOk numPieces hostTableSize
              (leVal (((stream.take 4096 ++ buf.drop (stream.take 4096).length).drop 17).take 2))
              (((stream.take 4096 ++ buf.drop (stream.take 4096).length).drop 17).drop 2)
              = false := by
            rw [← parseRecords_isOk, hp]
            rfl
          rw [hfalse, Bool.false_and]
          rfl
        | ok records =>
          have htrue : recordsOk numPieces hostTableSize
              (leVal (((stream.take 4096 ++ buf.drop (stream.take 4096).length).drop 17).take 2))
              (((stream.take 4096 ++ buf.drop (stream.take 4096).length).drop 17).drop 2)
              = true := by
            rw [← parseRecords_isOk, hp]
            rfl
          rw [htrue, Bool.true_and]
          cases hl : loadChunks numPieces hostTableSize hostTable m
              (stream.take 4096 ++ buf.drop (stream.take 4096).length) (stream.drop 4096) with
          | error e =>
            rw [hl] at hrec
            exact hrec
          | ok rest2 =>
            rw [hl] at hrec
            exact hrec

/-- C6 amended: the chunk-table decoder fails iff the erasure-coding type
tag is unrecognised, or some expected chunk record is entirely absent
(zero stream bytes remain — `io.EOF`), or some piece record's reads
overrun the 4096-byte record buffer, or a decoded `pieceIndex` is ≥
`numPieces`, or a decoded `hostTableIndex` is ≥ the host table size — and
succeeds otherwise.  A merely partial chunk record does NOT fail:
`io.ErrUnexpectedEOF` is tolerated and the record is parsed from the
partially overwritten reused buffer. -/
theorem load_malformed_iff (ecType dataPieces parityPieces fileSize pieceSize : Nat)
    (hostTable : List Nat) (stream : List Nat) :
    exOk (loadFile ecType dataPieces parityPieces fileSize pieceSize hostTable stream)
      = loadOk ecType dataPieces parityPieces fileSize pieceSize hostTable stream := by
  unfold loadFile loadOk initErasureCoder
  by_cases ht : ecType = 1 ∨ ecType = 2
  · rw [if_pos ht, decide_eq_true ht, Bool.true_and]
    exact loadChunks_isOk _ _ _ _ _ _
  · rw [if_neg ht, decide_eq_false ht, Bool.false_and]
    rfl

/-- C6 counterexample: a descriptor expecting one 4096-byte chunk record
whose chunk table holds only 19 bytes (a truncated record).  The claim
demands a malformed-descriptor failure; the decoder instead succeeds,
returning one chunk with two empty piece slots, because the partial read
is tolerated. -/
theorem load_partial_chunk_record_succeeds_cx :
    loadFile 1 1 1 1 1 [0] (List.replicate 19 0) = .ok [[[], []]]
    ∧ (List.replicate 19 0).length < 4096 := by
  constructor
  · have h1 : loadFile 1 1 1 1 1 [0] (List.replicate 19 0)
        = loadChunks 2 1 [0] 1 (List.replicate 4096 0) (List.replicate 19 0) := rfl
    rw [h1, loadChunks]
    rw [if_neg (by simp : ¬ (List.replicate 19 (0 : Nat)).length = 0)]
    have hbuf : List.take 4096 (List.replicate 19 (0 : Nat))
        ++ List.drop (List.take 4096 (List.replicate 19 (0 : Nat))).length
          (List.replicate 4096 (0 : Nat))
        = List.replicate 4096 (0 : Nat) := by
      rw [List.take_replicate, List.length_replicate, List.drop_replicate,
        ← List.replicate_add]
      congr 1
    rw [hbuf]
    rw [if_neg (by rw [List.drop_replicate, List.length_replicate]; decide :
      ¬ (List.drop 17 (List.replicate 4096 (0 : Nat))).length < 2)]
    have hcount : leVal (List.take 2 (List.drop 17 (List.replicate 4096 (0 : Nat)))) = 0 := by
      rw [List.drop_replicate, List.take_replicate]
      rfl
    rw [hcount]
    have hparse : parseRecords 2 1 0
        (List.drop 2 (List.drop 17 (List.replicate 4096 (0 : Nat)))) = .ok [] := rfl
    rw [hparse]
    rfl
  · decide

/-- JSON value model for the exported topology form. -/
inductive Json where
  | null
  | str (s : String)
  | num (n : Nat)
  | arr (items : List Json)
  | obj (fields : List (String × Json))

/-- Field lookup in a JSON object. -/
def lookupField : List (String × Json) → String → Option Json
  | [], _ => none
  | (k, v) :: rest, key => if k = key then some v else lookupField rest key

/-- Model of `siafile.Piece`: merkle root (modelled as a plain number — the hex
string marshalling of `crypto.Hash` round-trips exactly) and host key. -/
structure Piece where
  merkleRoot : Nat
  hostKey : String
deriving DecidableEq

/-- Model of `siafile.Chunk`: the per-piece-slot reference sets. -/
structure Chunk where
  pieces : List (List Piece)
deriving DecidableEq

/-- The exported `siafile.SiaFile` topology (siafile.go lines 88-107).
Byte strings (key material) are modelled as byte lists; Go's base64
string marshalling of `[]byte` round-trips exactly. -/
structure SiaFile where
  fileSize : Nat
  pieceSize : Nat
  encoderType : Nat
  dataPieces : Nat
  parityPieces : Nat
  masterKey : List Nat
  masterKeyType : String
  sharingKey : List Nat
  sharingKeyType : String
  skylinks : List String
  chunks : List Chunk
deriving DecidableEq

/-- Encode a byte string (Go marshals `[]byte` injectively as base64;
modelled as a number array). -/
def encBytes (b : List Nat) : Json := .arr (b.map .num)

/-- Encode a string list. -/
def encStrs (l : List String) : Json := .arr (l.map .str)

/-- Encode a piece (Go field names, no struct tags). -/
def encPiece (p : Piece) : Json :=
  .obj [("MerkleRoot", .num p.merkleRoot), ("HostKey", .str p.hostKey)]

/-- Encode a chunk. -/
def encChunk (c : Chunk) : Json :=
  .obj [("pieces", .arr (c.pieces.map (fun ps => .arr (ps.map encPiece))))]

/-- Encode the topology with its JSON struct-tag field names
(`json.Encoder` output of cmd/skyscan and the SiaFile tags). -/
def encSiaFile (sf : SiaFile) : Json :=
  .obj [("filesize", .num sf.fileSize),
        ("piecesize", .num sf.pieceSize),
        ("encodertype", .num sf.encoderType),
        ("datapieces", .num sf.dataPieces),
        ("paritypieces", .num sf.parityPieces),
        ("masterkey", encBytes sf.masterKey),
        ("masterkeytype", .str sf.masterKeyType),
        ("sharingkey", encBytes sf.sharingKey),
        ("sharingkeytype", .str sf.sharingKeyType),
        ("skylinks", encStrs sf.skylinks),
        ("chunks", .arr (sf.chunks.map encChunk))]

/-- Option-valued traversal. -/
def mapOpt {α β : Type} (f : α → Option β) : List α → Option (List β)
  | [] => some []
  | a :: rest =>
    match f a with
    | none => none
    | some b =>
      match mapOpt f rest with
      | none => none
      | some bs => some (b :: bs)

/-- Decode a number. -/
def decNum : Json → Option Nat
  | .num n => some n
  | _ => none

/-- Decode a string. -/
def decStr : Json → Option String
  | .str s => some s
  | _ => none

/-- Decode a byte string. -/
def decBytes : Json → Option (List Nat)
  | .arr items => mapOpt decNum items
  | _ => none

/-- Decode a string list. -/
def decStrs : Json → Option (List String)
  | .arr items => mapOpt decStr items
  | _ => none

/-- Decode a piece. -/
def decPiece (j : Json) : Option Piece :=
  match j with
  | .obj fields =>
    match lookupField fields "MerkleRoot", lookupField fields "HostKey" with
    | some r, some h =>
      match decNum r, decStr h with
      | some rn, some hs => some ⟨rn, hs⟩
      | _, _ => none
    | _, _ => none
  | _ => none

/-- Decode one piece slot. -/
def decPieceSet (j : Json) : Option (List Piece) :=
  match j with
  | .arr items => mapOpt decPiece items
  | _ => none

/-- Decode a chunk. -/
def decChunk (j : Json) : Option Chunk :=
  match j with
  | .obj fields =>
    match lookupField fields "pieces" with
    | some (.arr items) =>
      match mapOpt decPieceSet items with
      | some pss => some ⟨pss⟩
      | none => none
    | _ => none
  | _ => none

/-- Decode one object field with the given value decoder. -/
def decField {α : Type} (fields : List (String × Json)) (key : String)
    (dec : Json → Option α) : Option α :=
  match lookupField fields key with
  | none => none
  | some j => dec j

/-- Decode the chunk list. -/
def decChunks : Json → Option (List Chunk)
  | .arr items => mapOpt decChunk items
  | _ => none

/-- Decode the topology. -/
def decSiaFile (j : Json) : Option SiaFile :=
  match j with
  | .obj fields => do
    let fileSize ← decField fields "filesize" decNum
    let pieceSize ← decField fields "piecesize" decNum
    let encoderType ← decField fields "encodertype" decNum
    let dataPieces ← decField fields "datapieces" decNum
    let parityPieces ← decField fields "paritypieces" decNum
    let masterKey ← decField fields "masterkey" decBytes
    let masterKeyType ← decField fields "masterkeytype" decStr
    let sharingKey ← decField fields "sharingkey" decBytes
    let sharingKeyType ← decField fields "sharingkeytype" decStr
    let skylinks ← decField fields "skylinks" decStrs
    let chunks ← decField fields "chunks" decChunks
    pure ⟨fileSize, pieceSize, encoderType, dataPieces, parityPieces, masterKey,
          masterKeyType, sharingKey, sharingKeyType, skylinks, chunks⟩
  | _ => none

/-- Helper: traversal of an encoded list decodes to the original. -/
lemma mapOpt_map {α β : Type} (f : β → Option α) (g : α → β) (l : List α)
    (h : ∀ a ∈ l, f (g a) = some a) : mapOpt f (l.map g) = some l := by
  induction l with
  | nil => rfl
  | cons a rest ih =>
    simp only [List.map_cons, mapOpt, h a (List.mem_cons_self a rest)]
    rw [ih (fun x hx => h x (List.mem_cons_of_mem a hx))]

/-- Helper: pieces round-trip. -/
lemma decPiece_encPiece (p : Piece) : decPiece (encPiece p) = some p := rfl

/-- Helper: piece slots round-trip. -/
lemma decPieceSet_enc (ps : List Piece) :
    decPieceSet (.arr (ps.map encPiece)) = some ps := by
  simp only [decPieceSet]
  exact mapOpt_map decPiece encPiece ps (fun a _ => decPiece_encPiece a)

/-- Helper: chunks round-trip. -/
lemma decChunk_encChunk (c : Chunk) : decChunk (encChunk c) = some c := by
  have h := mapOpt_map decPieceSet (fun ps => Json.arr (ps.map encPiece)) c.pieces
    (fun a _ => decPieceSet_enc a)
  simp [encChunk, decChunk, lookupField, h]

/-- C8: decoding the encoded JSON form of any topology yields the
identical topology — file size, piece size, encoder type and parameters,
key material, skylinks, and the full chunk/piece/root/host structure all
round-trip exactly. -/
theorem siaFile_json_roundTrip (sf : SiaFile) :
    decSiaFile (encSiaFile sf) = some sf := by
  have hbytes : ∀ b : List Nat, decBytes (encBytes b) = some b := by
    intro b
    simp only [encBytes, decBytes]
    exact mapOpt_map decNum Json.num b (fun a _ => rfl)
  have hstrs : ∀ l : List String, decStrs (encStrs l) = some l := by
    intro l
    simp only [encStrs, decStrs]
    exact mapOpt_map decStr Json.str l (fun a _ => rfl)
  have hchunks : decChunks (.arr (sf.chunks.map encChunk)) = some sf.chunks := by
    simp only [decChunks]
    exact mapOpt_map decChunk encChunk sf.chunks (fun a _ => decChunk_encChunk a)
  simp [encSiaFile, decSiaFile, decField, lookupField, hbytes, hstrs, hchunks,
    decNum, decStr]
